import Mathlib

/-!
# Application Change-Revision Controller

A shallow embedding of `acr_controller/service/acr_service.go` and of the
per-event step of `acr_controller/controller/controller.go`, followed by
theorems about the Revision Resolver (`ChangeRevision`), the derivation of the
`(current, previous)` revision pair (`getRevisions`) and the patch builders.

Conventions of the embedding:

* a Go pointer `*T` is an `Option T` (`none` is `nil`);
* a Go `[]string` that reaches `encoding/json` is a `StringSlice`
  (`none` is the nil slice, which `json.Marshal` writes as `null`);
* a Go `map[string]V` is a list of entries; maps built by the code are kept
  sorted by key, the order in which `json.Marshal` writes them;
* the Object Store and the Revision Computer are an explicit `Backend` over an
  abstract state, every call is appended to a log of `Call`s;
* a run-time panic (nil dereference, index out of range) is an explicit result.
-/

namespace ACR

/-! ## Data model (`pkg/apis/application/v1alpha1`, the fields the service reads) -/

/-- Go error value, identified by its message. -/
abbrev GoError := String

deriving instance DecidableEq for Except

/-- Go value of type `[]string`; `none` is the nil slice. -/
abbrev StringSlice := Option (List String)

/-- Go `len` on a `[]string`: the nil slice has length zero. -/
def StringSlice.len : StringSlice → Nat
  | none => 0
  | some xs => xs.length

/-- Go slice indexing `xs[i]` with the run-time bounds check; `none` is the
index-out-of-range panic. The index is a signed `int`. -/
def goIndex {α : Type} (xs : List α) (i : Int) : Option α :=
  if i < 0 then none else xs[i.toNat]?

/-- Sync sub-operation `SyncOperation`: target revision and the resolved change revision(s). -/
structure SyncOperation where
  Revision : String
  ChangeRevision : String
  ChangeRevisions : List String
  deriving DecidableEq, Repr

/-- Desired or mirrored `Operation`; `Sync` is a pointer. -/
structure Operation where
  Sync : Option SyncOperation
  deriving DecidableEq, Repr

/-- Result of a completed sync, `SyncOperationResult`. -/
structure SyncOperationResult where
  Revision : String
  deriving DecidableEq, Repr

/-- Status field `OperationState`: the operation being run (by value) and its optional sync result. -/
structure OperationState where
  Operation : Operation
  SyncResult : Option SyncOperationResult
  deriving DecidableEq, Repr

/-- One record of `status.history`. -/
structure RevisionHistory where
  Revision : String
  deriving DecidableEq, Repr

/-- Status field `SyncStatus`; `Status` is the sync state tag. -/
structure SyncStatus where
  Status : String
  deriving DecidableEq, Repr

/-- Type `ApplicationStatus`; `History` is ordered oldest first. -/
structure ApplicationStatus where
  Sync : SyncStatus
  History : List RevisionHistory
  OperationState : Option OperationState
  deriving DecidableEq, Repr

/-- Type `Application`: identity, annotations, desired operation and status. -/
structure Application where
  Name : String
  Namespace : String
  Annotations : List (String × String)
  Operation : Option Operation
  Status : ApplicationStatus
  deriving DecidableEq, Repr

/-! ## Revision derivation -/

/-- Source: `getChangeRevisionFromRevisions`. -/
def getChangeRevisionFromRevisions (revisions : List String) : String :=
  match revisions with
  | r :: _ => r
  | [] => ""

/-- Source: `getChangeRevision`. -/
def getChangeRevision (app : Application) : String :=
  match app.Status.OperationState with
  | none => ""
  | some os =>
    match os.Operation.Sync with
    | none => ""
    | some sync =>
      if sync.ChangeRevision ≠ "" then sync.ChangeRevision
      else if getChangeRevisionFromRevisions sync.ChangeRevisions ≠ "" then
        getChangeRevisionFromRevisions sync.ChangeRevisions
      else ""

/-- Source: `getCurrentRevisionFromOperation`. -/
def getCurrentRevisionFromOperation (a : Application) : String :=
  match a.Operation with
  | none => ""
  | some op =>
    match op.Sync with
    | none => ""
    | some sync => sync.Revision

/-- Source: `acrService.getRevisions`. The result is `(current, previous)`;
`none` is an index-out-of-range panic of one of the two history reads. -/
def getRevisions (a : Application) : Option (String × String) :=
  if a.Status.History.length = 0 then
    some (getCurrentRevisionFromOperation a, "")
  else
    match a.Status.Sync.Status == "Synced", a.Status.OperationState.bind (·.SyncResult) with
    | true, some syncResult =>
      let currentRevision := syncResult.Revision
      if a.Status.History.length = 1 then
        some (currentRevision, "")
      else
        (goIndex a.Status.History ((a.Status.History.length : Int) - 2)).map
          fun h => (currentRevision, h.Revision)
    | _, _ =>
      let currentRevision := getCurrentRevisionFromOperation a
      (goIndex a.Status.History ((a.Status.History.length : Int) - 1)).map
        fun h => (currentRevision, h.Revision)

/-! ## Go maps and `encoding/json` (the fragment the service uses) -/

/-- Go string order `a < b` (byte-wise on the UTF-8 text, which is the
lexicographic order of the code points). -/
def stringLess (a b : String) : Prop := a.toList < b.toList

instance (a b : String) : Decidable (stringLess a b) :=
  inferInstanceAs (Decidable (a.toList < b.toList))

/-- Go `m[key] = val` on a map kept sorted by key: an entry with the same key
is replaced, a new key is inserted at its place in the key order. -/
def mapSet {α : Type} (m : List (String × α)) (key : String) (val : α) : List (String × α) :=
  match m with
  | [] => [(key, val)]
  | (k, v) :: rest =>
    if k = key then (key, val) :: rest
    else if stringLess key k then (key, val) :: (k, v) :: rest
    else (k, v) :: mapSet rest key val

/-- Go `val, ok := m[key]`; `none` is `ok = false`. -/
def mapGet {α : Type} (m : List (String × α)) (key : String) : Option α :=
  match m with
  | [] => none
  | (k, v) :: rest => if k = key then some v else mapGet rest key

/-- Values stored in a patch map (`map[string]any`): a string, a `[]string`,
a `map[string]string` or a nested `map[string]any`. -/
inductive JSONValue where
  | string (s : String)
  | strings (xs : StringSlice)
  | stringMap (m : List (String × String))
  | object (m : List (String × JSONValue))

/-- Go `map[string]any`. -/
abbrev PatchMap := List (String × JSONValue)

/-- Lower-case hexadecimal digit of `n < 16`, the table `hex` of `encoding/json`. -/
def hexDigit (n : Nat) : Char :=
  "0123456789abcdef".toList.getD n '0'

/-- Encoding of one character inside a JSON string as `encoding/json` writes it
with HTML escaping on (the default of `json.Marshal`). -/
def jsonEscapeChar (c : Char) : List Char :=
  if c = '\\' ∨ c = '"' then ['\\', c]
  else if c = '\x08' then ['\\', 'b']
  else if c = '\x0c' then ['\\', 'f']
  else if c = '\n' then ['\\', 'n']
  else if c = '\r' then ['\\', 'r']
  else if c = '\t' then ['\\', 't']
  else if c.toNat < 0x20 ∨ c = '<' ∨ c = '>' ∨ c = '&' then
    ['\\', 'u', '0', '0', hexDigit (c.toNat / 16), hexDigit (c.toNat % 16)]
  else if c.toNat = 0x2028 ∨ c.toNat = 0x2029 then
    ['\\', 'u', '2', '0', '2', hexDigit (c.toNat % 16)]
  else [c]

/-- Value of `json.Marshal` on a Go `string`. -/
def jsonString (s : String) : String :=
  String.mk ('"' :: (s.toList.flatMap jsonEscapeChar) ++ ['"'])

/-- Comma-separated JSON strings, the elements of an array. -/
def jsonStringList : List String → String
  | [] => ""
  | [x] => jsonString x
  | x :: rest => jsonString x ++ "," ++ jsonStringList rest

/-- Value of `json.Marshal` on a Go `[]string`: the nil slice is `null`. -/
def jsonStrings : StringSlice → String
  | none => "null"
  | some xs => "[" ++ jsonStringList xs ++ "]"

/-- Members of a JSON object whose values are strings, in list order. -/
def jsonStringMembers : List (String × String) → String
  | [] => ""
  | [(k, v)] => jsonString k ++ ":" ++ jsonString v
  | (k, v) :: rest => jsonString k ++ ":" ++ jsonString v ++ "," ++ jsonStringMembers rest

mutual
/-- Text that `json.Marshal` writes for a stored value. -/
def jsonEncode : JSONValue → String
  | .string s => jsonString s
  | .strings xs => jsonStrings xs
  | .stringMap m => "\x7b" ++ jsonStringMembers m ++ "\x7d"
  | .object m => "\x7b" ++ jsonMembers m ++ "\x7d"
/-- Members of a JSON object, in list order. -/
def jsonMembers : List (String × JSONValue) → String
  | [] => ""
  | [(k, v)] => jsonString k ++ ":" ++ jsonEncode v
  | (k, v) :: (kv :: rest) => jsonString k ++ ":" ++ jsonEncode v ++ "," ++ jsonMembers (kv :: rest)
end

/-- Go `json.Marshal` on a `[]string`; it has no failing case on this type. -/
def jsonMarshalStrings (xs : StringSlice) : Except GoError String :=
  .ok (jsonStrings xs)

/-- Go `json.Marshal` on a patch map; it has no failing case on these values. -/
def jsonMarshal (m : PatchMap) : Except GoError String :=
  .ok (jsonEncode (.object m))

/-! ## External collaborators: Object Store and Revision Computer -/

/-- Request of the Revision Computer, `appclient.ChangeRevisionRequest`. -/
structure ChangeRevisionRequest where
  AppName : String
  Namespace : String
  CurrentRevision : String
  PreviousRevision : String
  deriving DecidableEq, Repr

/-- Response of the Revision Computer; `Revision` is a `*string`. -/
structure ChangeRevisionResponse where
  Revision : Option String
  deriving DecidableEq, Repr

/-- One call made to an external collaborator. `Patch` carries the namespace,
the name and the JSON text of the merge patch. -/
inductive Call where
  | Get (ns name : String)
  | GetChangeRevision (req : ChangeRevisionRequest)
  | Patch (ns name : String) (patch : String)
  deriving DecidableEq, Repr

/-- The collaborators of the service over an abstract state `σ` of the outside
world: `applicationClientset...Applications(ns).Get`, the Revision Computer
`applicationServiceClient.GetChangeRevision` and
`applicationClientset...Applications(ns).Patch` with `types.MergePatchType`. -/
structure Backend (σ : Type) where
  Get : String → String → σ → Except GoError Application × σ
  GetChangeRevision : ChangeRevisionRequest → σ → Except GoError ChangeRevisionResponse × σ
  Patch : String → String → String → σ → Except GoError Unit × σ

/-- State of the outside world together with the log of the calls made so far, oldest first. -/
structure World (σ : Type) where
  state : σ
  calls : List Call
  deriving DecidableEq, Repr

/-- What an invocation does: return `nil`, return an error, or panic. -/
inductive Result where
  | ok
  | error (err : GoError)
  | panic
  deriving DecidableEq, Repr

/-- Go `return err` for an `err` that may be `nil`: `nil` is the normal return. -/
def returnErr {α : Type} : Except GoError α → Result
  | .ok _ => Result.ok
  | .error err => Result.error err

/-- Object Store read, logged. -/
def clientGet {σ : Type} (B : Backend σ) (ns name : String) (w : World σ) :
    Except GoError Application × World σ :=
  ((B.Get ns name w.state).1, ⟨(B.Get ns name w.state).2, w.calls ++ [Call.Get ns name]⟩)

/-- Object Store merge patch, logged. -/
def clientPatch {σ : Type} (B : Backend σ) (ns name patch : String) (w : World σ) :
    Except GoError Unit × World σ :=
  ((B.Patch ns name patch w.state).1,
    ⟨(B.Patch ns name patch w.state).2, w.calls ++ [Call.Patch ns name patch]⟩)

/-! ## The service -/

/-- Source: constant `CHANGE_REVISION_ANN`. -/
def CHANGE_REVISION_ANN : String := "mrp-controller.argoproj.io/change-revision"
/-- Source: constant `CHANGE_REVISIONS_ANN`. -/
def CHANGE_REVISIONS_ANN : String := "mrp-controller.argoproj.io/change-revisions"
/-- Source: constant `GIT_REVISION_ANN`. -/
def GIT_REVISION_ANN : String := "mrp-controller.argoproj.io/git-revision"
/-- Source: constant `GIT_REVISIONS_ANN`. -/
def GIT_REVISIONS_ANN : String := "mrp-controller.argoproj.io/git-revisions"

/-- Source: `addPatchIfNeeded`; the updated `annotations` map is returned. -/
def addPatchIfNeeded (annotations currentAnnotations : List (String × String))
    (key val : String) : List (String × String) :=
  match mapGet currentAnnotations key with
  | none => mapSet annotations key val
  | some currentVal => if currentVal ≠ val then mapSet annotations key val else annotations

/-- Source: `acrService.addAnnotationPatch`; the updated map `m` is returned.
The two error returns keep their place; `json.Marshal` of a `[]string` has no
failing case, and the text of their messages is shortened. -/
def addAnnotationPatch (m : PatchMap) (a : Application) (changeRevision : String)
    (changeRevisions : StringSlice) (gitRevision : String) (gitRevisions : StringSlice) :
    Except GoError PatchMap :=
  let annotations : List (String × String) := []
  let currentAnnotations := a.Annotations
  match jsonMarshalStrings changeRevisions with
  | .error err => .error ("Failed to marshall changeRevisions: " ++ err)
  | .ok changeRevisionsJson =>
    match jsonMarshalStrings gitRevisions with
    | .error err => .error ("Failed to marshall gitRevisions: " ++ err)
    | .ok gitRevisionsJson =>
      let annotations := addPatchIfNeeded annotations currentAnnotations CHANGE_REVISION_ANN changeRevision
      let annotations := addPatchIfNeeded annotations currentAnnotations CHANGE_REVISIONS_ANN changeRevisionsJson
      let annotations := addPatchIfNeeded annotations currentAnnotations GIT_REVISION_ANN gitRevision
      let annotations := addPatchIfNeeded annotations currentAnnotations GIT_REVISIONS_ANN gitRevisionsJson
      .ok (mapSet m "metadata" (.object [("annotations", .stringMap annotations)]))

/-- Source: `acrService.calculateRevision`. -/
def calculateRevision {σ : Type} (B : Backend σ) (a : Application)
    (currentRevision previousRevision : String) (w : World σ) :
    Except GoError (Option String) × World σ :=
  let req : ChangeRevisionRequest :=
    { AppName := a.Name, Namespace := a.Namespace,
      CurrentRevision := currentRevision, PreviousRevision := previousRevision }
  let w1 : World σ :=
    ⟨(B.GetChangeRevision req w.state).2, w.calls ++ [Call.GetChangeRevision req]⟩
  match (B.GetChangeRevision req w.state).1 with
  | .error err => (.error err, w1)
  | .ok changeRevisionResult => (.ok changeRevisionResult.Revision, w1)

/-- Source: `acrService.patchOperationWithChangeRevision`. -/
def patchOperationWithChangeRevision (_a : Application) (revisions : StringSlice) : PatchMap :=
  match revisions with
  | some [r] =>
    [("operation", .object [("sync", .object [("changeRevision", .string r)])])]
  | _ =>
    [("operation", .object [("sync", .object [("changeRevisions", .strings revisions)])])]

/-- Source: `acrService.patchOperationSyncResultWithChangeRevision`. -/
def patchOperationSyncResultWithChangeRevision (_a : Application) (revisions : StringSlice) :
    PatchMap :=
  match revisions with
  | some [r] =>
    [("status", .object [("operationState", .object [("operation",
      .object [("sync", .object [("changeRevision", .string r)])])])])]
  | _ =>
    [("status", .object [("operationState", .object [("operation",
      .object [("sync", .object [("changeRevisions", .strings revisions)])])])])]

/-- Source: `acrService.ChangeRevision`. The lock and the log lines are left
out; `a` is the event snapshot, `app` the object read from the Object Store
(rebound by the second read, as in the source). The result `panic` stands for
an index out of range inside `getRevisions` and for the dereference `*revision`
of a nil revision in the argument list of `addAnnotationPatch`. -/
def ChangeRevision {σ : Type} (B : Backend σ) (a : Application) (useAnnotations : Bool)
    (w : World σ) : Result × World σ :=
  match clientGet B a.Namespace a.Name w with
  | (.error err, w) => (.error err, w)
  | (.ok app, w) =>
    match app.Operation.bind (·.Sync) with
    | none => (.ok, w)
    | some _ =>
      if getChangeRevision app ≠ "" then (.ok, w)
      else
        match getRevisions a with
        | none => (.panic, w)
        | some (currentRevision, previousRevision) =>
          match calculateRevision B app currentRevision previousRevision w with
          | (.error err, w) => (.error err, w)
          | (.ok revision, w) =>
            let revisions : StringSlice :=
              match revision with
              | none => none
              | some r => if r = "" then none else some [r]
            match clientGet B app.Namespace app.Name w with
            | (.error err, w) => (.error err, w)
            | (.ok app, w) =>
              let patchMap : PatchMap := []
              let patchMap : PatchMap :=
                if revisions.len > 0 then
                  if (app.Status.OperationState.bind (·.Operation.Sync)).isSome then
                    patchOperationSyncResultWithChangeRevision app revisions
                  else
                    patchOperationWithChangeRevision app revisions
                else patchMap
              let annotated : Option (Except GoError PatchMap) :=
                if useAnnotations then
                  match revision with
                  | none => none
                  | some rev =>
                    some (addAnnotationPatch patchMap app rev revisions currentRevision
                      (some [currentRevision]))
                else some (.ok patchMap)
              match annotated with
              | none => (.panic, w)
              | some (.error err) => (.error err, w)
              | some (.ok patchMap) =>
                if patchMap.length > 0 then
                  match jsonMarshal patchMap with
                  | .error err => (.error err, w)
                  | .ok patch =>
                    (returnErr (clientPatch B a.Namespace a.Name patch w).1,
                      (clientPatch B a.Namespace a.Name patch w).2)
                else (.ok, w)

/-! ## The controller's per-event step -/

/-- Event kinds of `watch.EventType`. -/
inductive EventType where
  | Added
  | Modified
  | Deleted
  | Bookmark
  | Error
  deriving DecidableEq, Repr

/-- Queued event `ApplicationWatchEvent`: kind (field `Type` in the source) and
Application snapshot. -/
structure ApplicationWatchEvent where
  Kind : EventType
  Application : Application
  deriving DecidableEq, Repr

/-- Source: the closure `calculateIfPermitted` of `applicationChangeRevisionController.Run`. -/
def calculateIfPermitted {σ : Type} (B : Backend σ) (useAnnotations : Bool) (a : Application)
    (eventType : EventType) (w : World σ) : Result × World σ :=
  if eventType = EventType.Bookmark ∨ eventType = EventType.Deleted then (.ok, w)
  else ChangeRevision B a useAnnotations w

/-- Source: the receive loop of `applicationChangeRevisionController.Run`, run
on the events received before cancellation. An error of the per-event step is
logged and the loop goes on to the next event; a panic is not recovered and ends
the loop. The result tells whether the loop panicked and gives the logged
errors, oldest first, and the world. -/
def Run {σ : Type} (B : Backend σ) (useAnnotations : Bool)
    (events : List ApplicationWatchEvent) (logged : List GoError) (w : World σ) :
    Bool × List GoError × World σ :=
  match events with
  | [] => (false, logged, w)
  | event :: rest =>
    match calculateIfPermitted B useAnnotations event.Application event.Kind w with
    | (Result.ok, w) => Run B useAnnotations rest logged w
    | (Result.error err, w) => Run B useAnnotations rest (logged ++ [err]) w
    | (Result.panic, w) => (true, logged, w)

/-! ## Concrete backends and objects for evaluating runs -/

/-- Backend whose store answers the first read with `first` and every later
read with `second`, whose Revision Computer answers `revision`, and whose
patch call succeeds; the state counts the reads. -/
def scriptedBackend (first second : Application) (revision : Option String) : Backend Nat where
  Get := fun _ _ n => (.ok (if n = 0 then first else second), n + 1)
  GetChangeRevision := fun _ n => (.ok ⟨revision⟩, n)
  Patch := fun _ _ _ n => (.ok (), n)

/-- Application `guestbook` in namespace `argocd` with the given annotations,
desired operation, sync state, history and operation state. -/
def mkApp (annotations : List (String × String)) (operation : Option Operation)
    (syncStatus : String) (history : List String) (operationState : Option OperationState) :
    Application :=
  { Name := "guestbook", Namespace := "argocd", Annotations := annotations,
    Operation := operation,
    Status := { Sync := ⟨syncStatus⟩, History := history.map RevisionHistory.mk,
                OperationState := operationState } }

/-- Desired operation with a sync sub-operation for `revision` and no change revision. -/
def syncTo (revision : String) : Operation :=
  { Sync := some { Revision := revision, ChangeRevision := "", ChangeRevisions := [] } }

/-- Fetched object of the sample runs: first sync to `R1`, nothing resolved yet. -/
def firstSyncApp : Application :=
  mkApp [] (some (syncTo "R1")) "OutOfSync" [] none

/-- Fetched object whose operation state already lists the change revision `abc`. -/
def resolvedApp : Application :=
  mkApp [] (some (syncTo "R1")) "OutOfSync" []
    (some { Operation := ⟨some ⟨"R1", "", ["abc"]⟩⟩, SyncResult := none })

/-- Completed sync with history `[R1, R2]` and sync result `R2`. -/
def completedSyncApp : Application :=
  mkApp [] (some (syncTo "R2")) "Synced" ["R1", "R2"]
    (some { Operation := syncTo "R2", SyncResult := some ⟨"R2"⟩ })

/-- In-progress sync to `R2` on top of history `[R1]`. -/
def inProgressApp : Application :=
  mkApp [] (some (syncTo "R2")) "OutOfSync" ["R1"] none

/-- Fetched object whose operation state holds the single change revision `abc`. -/
def statusResolvedApp : Application :=
  mkApp [] (some (syncTo "R1")) "OutOfSync" []
    (some { Operation := ⟨some ⟨"R1", "abc", []⟩⟩, SyncResult := none })

/-- Object whose desired operation already carries the change revision `abc`
while `status.operationState` is absent, the state an `operation.sync` patch leaves. -/
def desiredOnlyApp : Application :=
  mkApp [] (some ⟨some ⟨"R1", "abc", []⟩⟩) "OutOfSync" [] none

/-- Object whose operation state mirrors the running sync to `R1`, nothing resolved yet. -/
def runningApp : Application :=
  mkApp [] (some (syncTo "R1")) "OutOfSync" []
    (some { Operation := syncTo "R1", SyncResult := none })

/-- Event snapshot of the same object taken at another time: history `[R0]`
and a desired sync to `R9`. -/
def staleSnapshot : Application :=
  mkApp [] (some (syncTo "R9")) "OutOfSync" ["R0"] none

/-- First-sync object whose annotations already hold the four values that a
run with current revision `R1` and no resolved change revision proposes. -/
def annotatedApp : Application :=
  mkApp [(CHANGE_REVISION_ANN, ""), (CHANGE_REVISIONS_ANN, "null"),
      (GIT_REVISION_ANN, "R1"), (GIT_REVISIONS_ANN, "[\"R1\"]")]
    (some (syncTo "R1")) "OutOfSync" [] none

/-- Object annotated with `git-revision = R1` and an older `change-revision`. -/
def gitAnnotatedApp : Application :=
  mkApp [(GIT_REVISION_ANN, "R1"), (CHANGE_REVISION_ANN, "old")]
    (some (syncTo "R1")) "OutOfSync" [] none

/-- Backend like `scriptedBackend` in which the call number `failAt` (counted
from zero over all calls: reads, Revision Computer calls and patches) fails
with the error `unavailable`; the state counts the calls. -/
def faultyBackend (first second : Application) (revision : Option String) (failAt : Nat) :
    Backend Nat where
  Get := fun _ _ n =>
    (if n = failAt then .error "unavailable" else .ok (if n = 0 then first else second), n + 1)
  GetChangeRevision := fun _ n =>
    (if n = failAt then .error "unavailable" else .ok ⟨revision⟩, n + 1)
  Patch := fun _ _ _ n => (if n = failAt then .error "unavailable" else .ok (), n + 1)

/-- Object without a desired operation, with a completed history and annotations. -/
def idleApp : Application :=
  mkApp [(GIT_REVISION_ANN, "R1")] none "Synced" ["R1"]
    (some { Operation := syncTo "R1", SyncResult := some ⟨"R1"⟩ })

/-- Queue of three events on the same object: a bookmark, an addition and a modification. -/
def sampleEvents : List ApplicationWatchEvent :=
  [⟨EventType.Bookmark, firstSyncApp⟩, ⟨EventType.Added, firstSyncApp⟩,
    ⟨EventType.Modified, firstSyncApp⟩]

/-! ## Revision derivation: theorems -/

/-- Go index `len - k` into a list of length at least `k` reads position `len - k`. -/
theorem goIndex_length_sub {α : Type} (xs : List α) (k : Nat) (hk : k ≤ xs.length) :
    goIndex xs ((xs.length : Int) - k) = xs[xs.length - k]? := by
  have h : ¬ ((xs.length : Int) - k < 0) := by omega
  have e : ((xs.length : Int) - (k : Int)).toNat = xs.length - k := by omega
  simp [goIndex, h, e]

/-- The two history reads of `getRevisions` are always in range: it never panics. -/
theorem getRevisions_isSome (a : Application) : (getRevisions a).isSome = true := by
  unfold getRevisions
  split
  · rfl
  · rename_i hlen
    have hpos : 0 < a.Status.History.length := Nat.pos_of_ne_zero hlen
    split
    · split
      · rfl
      · rename_i hone
        have hidx := goIndex_length_sub a.Status.History 2 (by omega)
        have hlt : a.Status.History.length - 2 < a.Status.History.length := by omega
        simp only [Nat.cast_ofNat] at hidx
        simp [hidx, List.getElem?_eq_getElem hlt]
    · have hidx := goIndex_length_sub a.Status.History 1 (by omega)
      have hlt : a.Status.History.length - 1 < a.Status.History.length := by omega
      simp only [Nat.cast_one] at hidx
      simp [hidx, List.getElem?_eq_getElem hlt]

/-- C3 (first-sync derivation): with an empty history `getRevisions` returns
`(current, "")`, where `current` is the revision of the desired operation's sync
sub-operation and the empty string when the operation or its sync sub-operation
is absent; sync state and operation state play no part. -/
theorem getRevisions_first_sync (a : Application) (hhist : a.Status.History = []) :
    getRevisions a = some (getCurrentRevisionFromOperation a, "") ∧
    (∀ op sync, a.Operation = some op → op.Sync = some sync →
      getRevisions a = some (sync.Revision, "")) ∧
    (a.Operation = none → getRevisions a = some ("", "")) ∧
    (∀ op, a.Operation = some op → op.Sync = none → getRevisions a = some ("", "")) := by
  have h0 : getRevisions a = some (getCurrentRevisionFromOperation a, "") := by
    simp [getRevisions, hhist]
  refine ⟨h0, ?_, ?_, ?_⟩
  · intro op sync hop hsync
    simp [h0, getCurrentRevisionFromOperation, hop, hsync]
  · intro hop
    simp [h0, getCurrentRevisionFromOperation, hop]
  · intro op hop hsync
    simp [h0, getCurrentRevisionFromOperation, hop, hsync]

/-- Witness of C3: empty history and `operation.sync.revision = "R1"` give `("R1", "")`. -/
theorem getRevisions_first_sync_witness :
    firstSyncApp.Status.History = [] ∧ getRevisions firstSyncApp = some ("R1", "") :=
  ⟨rfl, (getRevisions_first_sync firstSyncApp rfl).1⟩

/-- C4 (completed-sync derivation): with a non-empty history, sync state
`"Synced"` and a sync result in the operation state, `getRevisions` returns the
sync result's revision as current; previous is `""` for a history of one entry
and otherwise the revision of `history[len-2]`, an index that is in range. -/
theorem getRevisions_completed_sync (a : Application) (os : OperationState)
    (syncResult : SyncOperationResult)
    (hhist : a.Status.History ≠ [])
    (hsynced : a.Status.Sync.Status = "Synced")
    (hos : a.Status.OperationState = some os)
    (hres : os.SyncResult = some syncResult) :
    (a.Status.History.length = 1 → getRevisions a = some (syncResult.Revision, "")) ∧
    (a.Status.History.length ≠ 1 →
      ∃ h, 2 ≤ a.Status.History.length ∧
        a.Status.History[a.Status.History.length - 2]? = some h ∧
        getRevisions a = some (syncResult.Revision, h.Revision)) := by
  have hlen : a.Status.History.length ≠ 0 := by
    intro h0
    exact hhist (List.length_eq_zero.mp h0)
  constructor
  · intro hone
    simp [getRevisions, hsynced, hos, hres, hone]
  · intro hne
    have h2 : 2 ≤ a.Status.History.length := by omega
    have hlt : a.Status.History.length - 2 < a.Status.History.length := by omega
    refine ⟨a.Status.History[a.Status.History.length - 2], h2,
      List.getElem?_eq_getElem hlt, ?_⟩
    have hidx := goIndex_length_sub a.Status.History 2 h2
    simp only [Nat.cast_ofNat] at hidx
    simp [getRevisions, hsynced, hos, hres, hne, hlen, hidx, List.getElem?_eq_getElem hlt]

/-- Witness of C4: history `[R1, R2]` with sync result `R2` gives `("R2", "R1")`. -/
theorem getRevisions_completed_sync_witness :
    getRevisions completedSyncApp = some ("R2", "R1") := by
  obtain ⟨h, -, hidx, hrev⟩ :=
    (getRevisions_completed_sync completedSyncApp
      { Operation := syncTo "R2", SyncResult := some ⟨"R2"⟩ } ⟨"R2"⟩
      (by decide) rfl rfl rfl).2 (by decide)
  have hh : h = ⟨"R1"⟩ := by
    have : completedSyncApp.Status.History[completedSyncApp.Status.History.length - 2]?
        = some ⟨"R1"⟩ := by decide
    rw [this] at hidx
    exact (Option.some.inj hidx).symm
  rw [hrev, hh]

/-- C5 (in-progress derivation): with a non-empty history and outside the
completed case, `getRevisions` returns the desired operation's sync revision as
current and the revision of the last history entry, `history[len-1]`, as previous. -/
theorem getRevisions_in_progress (a : Application)
    (hhist : a.Status.History ≠ [])
    (hnot : a.Status.Sync.Status ≠ "Synced" ∨ a.Status.OperationState = none ∨
      ∃ os, a.Status.OperationState = some os ∧ os.SyncResult = none) :
    ∃ h, a.Status.History.getLast? = some h ∧
      a.Status.History[a.Status.History.length - 1]? = some h ∧
      getRevisions a = some (getCurrentRevisionFromOperation a, h.Revision) ∧
      (∀ op sync, a.Operation = some op → op.Sync = some sync →
        getRevisions a = some (sync.Revision, h.Revision)) := by
  have hlen : a.Status.History.length ≠ 0 := by
    intro h0
    exact hhist (List.length_eq_zero.mp h0)
  have h1 : 1 ≤ a.Status.History.length := by omega
  have hlt : a.Status.History.length - 1 < a.Status.History.length := by omega
  have hidx := goIndex_length_sub a.Status.History 1 h1
  simp only [Nat.cast_one] at hidx
  have hrev : getRevisions a =
      some (getCurrentRevisionFromOperation a,
        (a.Status.History[a.Status.History.length - 1]).Revision) := by
    unfold getRevisions
    rw [if_neg hlen]
    split
    · rename_i syncResult hs hr
      exfalso
      rcases hnot with h | h | ⟨os, h, hres⟩
      · exact h (by simpa using hs)
      · simp [h] at hr
      · simp [h, hres] at hr
    · simp [hidx, List.getElem?_eq_getElem hlt]
  refine ⟨a.Status.History[a.Status.History.length - 1], ?_,
    List.getElem?_eq_getElem hlt, hrev, ?_⟩
  · rw [List.getLast?_eq_getElem?, List.getElem?_eq_getElem hlt]
  · intro op sync hop hsync
    simp [hrev, getCurrentRevisionFromOperation, hop, hsync]

/-- Witness of C5: sync state not `"Synced"`, history `[R1]` and
`operation.sync.revision = "R2"` give `("R2", "R1")`. -/
theorem getRevisions_in_progress_witness :
    getRevisions inProgressApp = some ("R2", "R1") := by
  obtain ⟨h, hlast, -, hrev, -⟩ :=
    getRevisions_in_progress inProgressApp (by decide) (Or.inl (by decide))
  have hh : h = ⟨"R1"⟩ := by
    have : inProgressApp.Status.History.getLast? = some ⟨"R1"⟩ := by decide
    rw [this] at hlast
    exact (Option.some.inj hlast).symm
  rw [hrev, hh]
  rfl

/-! ## The idempotency check: theorems -/

/-- The value `getChangeRevision` reads off a present operation-state sync sub-operation. -/
theorem getChangeRevision_of_sync (app : Application) (os : OperationState)
    (sync : SyncOperation) (hos : app.Status.OperationState = some os)
    (hsync : os.Operation.Sync = some sync) :
    getChangeRevision app =
      if sync.ChangeRevision ≠ "" then sync.ChangeRevision
      else getChangeRevisionFromRevisions sync.ChangeRevisions := by
  unfold getChangeRevision
  simp only [hos, hsync]
  by_cases h1 : sync.ChangeRevision = ""
  · by_cases h2 : getChangeRevisionFromRevisions sync.ChangeRevisions = ""
    · simp [h1, h2]
    · simp [h1, h2]
  · simp [h1]

/-- Without an operation-state sync sub-operation `getChangeRevision` is empty. -/
theorem getChangeRevision_of_no_sync (app : Application)
    (h : app.Status.OperationState.bind (·.Operation.Sync) = none) :
    getChangeRevision app = "" := by
  unfold getChangeRevision
  cases hos : app.Status.OperationState with
  | none => rfl
  | some os =>
    cases hsync : os.Operation.Sync with
    | none => simp [hsync]
    | some sync => simp [hos, hsync] at h

/-- When the fetched object carries a change revision in its operation state,
`ChangeRevision` stops after the first read. -/
theorem ChangeRevision_already_resolved {σ : Type} (B : Backend σ) (w : World σ)
    (a app : Application) (useAnnotations : Bool)
    (hget : (B.Get a.Namespace a.Name w.state).1 = .ok app)
    (hres : getChangeRevision app ≠ "") :
    ChangeRevision B a useAnnotations w =
      (Result.ok, ⟨(B.Get a.Namespace a.Name w.state).2,
        w.calls ++ [Call.Get a.Namespace a.Name]⟩) := by
  unfold ChangeRevision
  simp only [clientGet, hget]
  cases hop : app.Operation.bind (·.Sync) with
  | none => rfl
  | some dsync => simp [hres]

/-- C1 (idempotence): when the fetched Application has an operation-state sync
sub-operation with a non-empty change revision (the single value, or, when that
is empty, a non-empty first entry of the list), `ChangeRevision` returns no
error and its only call is the first read: no Revision Computer call and no
patch, for either value of `useAnnotations`. -/
theorem ChangeRevision_idempotent {σ : Type} (B : Backend σ) (w : World σ)
    (a app : Application) (useAnnotations : Bool) (os : OperationState) (sync : SyncOperation)
    (hget : (B.Get a.Namespace a.Name w.state).1 = .ok app)
    (hos : app.Status.OperationState = some os)
    (hsync : os.Operation.Sync = some sync)
    (hrev : sync.ChangeRevision ≠ "" ∨
      (sync.ChangeRevision = "" ∧ ∃ r rest, sync.ChangeRevisions = r :: rest ∧ r ≠ "")) :
    (ChangeRevision B a useAnnotations w).1 = Result.ok ∧
    (ChangeRevision B a useAnnotations w).2.calls = w.calls ++ [Call.Get a.Namespace a.Name] := by
  have hres : getChangeRevision app ≠ "" := by
    rw [getChangeRevision_of_sync app os sync hos hsync]
    rcases hrev with h | ⟨h, r, rest, hl, hr⟩
    · simp [h]
    · simp [h, hl, getChangeRevisionFromRevisions, hr]
  rw [ChangeRevision_already_resolved B w a app useAnnotations hget hres]
  exact ⟨rfl, rfl⟩

/-- Witness of C1: the change revision sits in the first entry of the list,
annotation mirroring is on, and the run makes the first read only. -/
theorem ChangeRevision_idempotent_witness :
    (ChangeRevision (scriptedBackend resolvedApp resolvedApp (some "new")) resolvedApp true
      ⟨0, []⟩).1 = Result.ok ∧
    (ChangeRevision (scriptedBackend resolvedApp resolvedApp (some "new")) resolvedApp true
      ⟨0, []⟩).2.calls = [Call.Get "argocd" "guestbook"] :=
  ChangeRevision_idempotent (scriptedBackend resolvedApp resolvedApp (some "new")) ⟨0, []⟩
    resolvedApp resolvedApp true
    { Operation := ⟨some ⟨"R1", "", ["abc"]⟩⟩, SyncResult := none } ⟨"R1", "", ["abc"]⟩
    rfl rfl rfl (Or.inr ⟨rfl, "abc", [], rfl, by decide⟩)

/-- C2 (claim as stated fails): the fetched object has
`operation.sync.changeRevision = "abc"` and no `status.operationState`, yet
`ChangeRevision` calls the Revision Computer and applies a patch. -/
theorem ChangeRevision_recomputes_desired_only :
    (desiredOnlyApp.Operation.bind (·.Sync)).map (·.ChangeRevision) = some "abc" ∧
    desiredOnlyApp.Status.OperationState = none ∧
    ChangeRevision (scriptedBackend desiredOnlyApp desiredOnlyApp (some "xyz")) desiredOnlyApp
        false ⟨0, []⟩ =
      (Result.ok, ⟨2, [Call.Get "argocd" "guestbook",
        Call.GetChangeRevision ⟨"guestbook", "argocd", "R1", ""⟩,
        Call.Get "argocd" "guestbook",
        Call.Patch "argocd" "guestbook"
          "\x7b\"operation\":\x7b\"sync\":\x7b\"changeRevision\":\"xyz\"\x7d\x7d\x7d"]⟩) := by
  decide

/-- Past the idempotency check the Revision Computer is called: the calls of
`ChangeRevision` start with the first read and the Revision Computer request. -/
theorem ChangeRevision_reaches_compute {σ : Type} (B : Backend σ) (w : World σ)
    (a app : Application) (useAnnotations : Bool) (dsync : SyncOperation) (cur prev : String)
    (s1 : σ)
    (hget : B.Get a.Namespace a.Name w.state = (.ok app, s1))
    (hop : app.Operation.bind (·.Sync) = some dsync)
    (hnone : getChangeRevision app = "")
    (hrevs : getRevisions a = some (cur, prev)) :
    (w.calls ++ [Call.Get a.Namespace a.Name,
        Call.GetChangeRevision ⟨app.Name, app.Namespace, cur, prev⟩]) <+:
      (ChangeRevision B a useAnnotations w).2.calls := by
  unfold ChangeRevision
  simp only [clientGet, hget, hop, hnone, hrevs, calculateRevision, clientPatch]
  rcases hrc : B.GetChangeRevision ⟨app.Name, app.Namespace, cur, prev⟩ s1 with ⟨_ | resp, s2⟩
  · simp
  · rcases hget2 : B.Get app.Namespace app.Name s2 with ⟨_ | app2, s3⟩
    · simp [hget2, List.prefix_iff_eq_append]
    · simp only [hget2, ne_eq, not_true_eq_false, ↓reduceIte]
      repeat' split
      all_goals simp_all [List.prefix_iff_eq_append]

/-- C2 (amended, at-most-once resolution): a change revision recorded in the
status's mirrored operation (`status.operationState.operation.sync.changeRevision`
non-empty) stops `ChangeRevision` after the first read, with no Revision
Computer call and no patch. The desired operation's `changeRevision` is not
consulted: with a desired sync operation and no `status.operationState` the
Revision Computer is called, whatever `operation.sync.changeRevision` holds. -/
theorem ChangeRevision_at_most_once_in_status {σ : Type} (B : Backend σ) (w : World σ)
    (a app : Application) (useAnnotations : Bool) (s1 : σ)
    (hget : B.Get a.Namespace a.Name w.state = (.ok app, s1)) :
    (∀ os sync, app.Status.OperationState = some os → os.Operation.Sync = some sync →
      sync.ChangeRevision ≠ "" →
      (ChangeRevision B a useAnnotations w).1 = Result.ok ∧
      (ChangeRevision B a useAnnotations w).2.calls =
        w.calls ++ [Call.Get a.Namespace a.Name]) ∧
    (∀ op dsync, app.Operation = some op → op.Sync = some dsync →
      app.Status.OperationState = none →
      ∃ cur prev, getRevisions a = some (cur, prev) ∧
        (w.calls ++ [Call.Get a.Namespace a.Name,
          Call.GetChangeRevision ⟨app.Name, app.Namespace, cur, prev⟩]) <+:
        (ChangeRevision B a useAnnotations w).2.calls) := by
  constructor
  · intro os sync hos hsync hrev
    have hres : getChangeRevision app ≠ "" := by
      rw [getChangeRevision_of_sync app os sync hos hsync]
      simp [hrev]
    have hget1 : (B.Get a.Namespace a.Name w.state).1 = .ok app := by rw [hget]
    rw [ChangeRevision_already_resolved B w a app useAnnotations hget1 hres]
    exact ⟨rfl, rfl⟩
  · intro op dsync hop hsync hos
    have hsome := getRevisions_isSome a
    cases hrevs : getRevisions a with
    | none => simp [hrevs] at hsome
    | some p =>
      obtain ⟨cur, prev⟩ := p
      refine ⟨cur, prev, rfl, ?_⟩
      have hnone : getChangeRevision app = "" :=
        getChangeRevision_of_no_sync app (by simp [hos])
      exact ChangeRevision_reaches_compute B w a app useAnnotations dsync cur prev s1 hget
        (by simp [hop, hsync]) hnone hrevs

/-- Witness of the amended C2: a change revision in the operation state stops
the run at the first read; one held only by the desired operation does not keep
the Revision Computer from being called. -/
theorem ChangeRevision_at_most_once_in_status_witness :
    ((ChangeRevision (scriptedBackend statusResolvedApp statusResolvedApp (some "new"))
        statusResolvedApp true ⟨0, []⟩).1 = Result.ok ∧
      (ChangeRevision (scriptedBackend statusResolvedApp statusResolvedApp (some "new"))
        statusResolvedApp true ⟨0, []⟩).2.calls = [Call.Get "argocd" "guestbook"]) ∧
    ∃ cur prev, getRevisions desiredOnlyApp = some (cur, prev) ∧
      [Call.Get "argocd" "guestbook",
        Call.GetChangeRevision ⟨"guestbook", "argocd", cur, prev⟩] <+:
      (ChangeRevision (scriptedBackend desiredOnlyApp desiredOnlyApp (some "xyz"))
        desiredOnlyApp false ⟨0, []⟩).2.calls :=
  ⟨(ChangeRevision_at_most_once_in_status
      (scriptedBackend statusResolvedApp statusResolvedApp (some "new")) ⟨0, []⟩
      statusResolvedApp statusResolvedApp true 1 rfl).1
      { Operation := ⟨some ⟨"R1", "abc", []⟩⟩, SyncResult := none } ⟨"R1", "abc", []⟩
      rfl rfl (by decide),
    (ChangeRevision_at_most_once_in_status
      (scriptedBackend desiredOnlyApp desiredOnlyApp (some "xyz")) ⟨0, []⟩
      desiredOnlyApp desiredOnlyApp false 1 rfl).2
      ⟨some ⟨"R1", "abc", []⟩⟩ ⟨"R1", "abc", []⟩ rfl rfl rfl⟩

/-! ## Inputs of the Revision Computer -/

/-- C6 (code evaluated at a failing input): the fetched object has empty
history and `operation.sync.revision = "R1"`, so the pair derived from it is
`("R1", "")`, but the event snapshot (same name and namespace) has history
`[R0]` and a desired sync to `R9`, and the request sent is
`(current = "R9", previous = "R0")`: `getRevisions` is applied to the snapshot.
With a snapshot equal to the fetched object the request is `("R1", "")`. -/
theorem ChangeRevision_request_from_snapshot :
    getRevisions firstSyncApp = some ("R1", "") ∧
    staleSnapshot.Name = firstSyncApp.Name ∧
    staleSnapshot.Namespace = firstSyncApp.Namespace ∧
    (ChangeRevision (scriptedBackend firstSyncApp firstSyncApp (some "abc")) staleSnapshot
        false ⟨0, []⟩).2.calls =
      [Call.Get "argocd" "guestbook",
        Call.GetChangeRevision ⟨"guestbook", "argocd", "R9", "R0"⟩,
        Call.Get "argocd" "guestbook",
        Call.Patch "argocd" "guestbook"
          "\x7b\"operation\":\x7b\"sync\":\x7b\"changeRevision\":\"abc\"\x7d\x7d\x7d"] ∧
    (ChangeRevision (scriptedBackend firstSyncApp firstSyncApp (some "abc")) firstSyncApp
        false ⟨0, []⟩).2.calls =
      [Call.Get "argocd" "guestbook",
        Call.GetChangeRevision ⟨"guestbook", "argocd", "R1", ""⟩,
        Call.Get "argocd" "guestbook",
        Call.Patch "argocd" "guestbook"
          "\x7b\"operation\":\x7b\"sync\":\x7b\"changeRevision\":\"abc\"\x7d\x7d\x7d"] := by
  decide

/-! ## Patch construction: theorems -/

/-- JSON text of the operation-pending patch with the single-value key. -/
theorem jsonEncode_operation_patch (r : String) :
    jsonEncode (.object [("operation", .object [("sync", .object
      [("changeRevision", .string r)])])]) =
    "\x7b\"operation\":\x7b\"sync\":\x7b\"changeRevision\":" ++ jsonString r ++ "\x7d\x7d\x7d" := by
  simp [jsonEncode, jsonMembers, String.append_assoc]
  rfl

/-- JSON text of the operation-running patch with the single-value key. -/
theorem jsonEncode_status_patch (r : String) :
    jsonEncode (.object [("status", .object [("operationState", .object [("operation",
      .object [("sync", .object [("changeRevision", .string r)])])])])]) =
    "\x7b\"status\":\x7b\"operationState\":\x7b\"operation\":\x7b\"sync\":\x7b\"changeRevision\":"
      ++ jsonString r ++ "\x7d\x7d\x7d\x7d\x7d" := by
  simp [jsonEncode, jsonMembers, String.append_assoc]
  rfl

/-- The run of `ChangeRevision` without annotation mirroring once the Revision
Computer has answered a non-empty revision `r` and the second read succeeded:
four calls, the last one the merge patch of the map chosen by the re-read object. -/
theorem ChangeRevision_patch_calls {σ : Type} (B : Backend σ) (w : World σ)
    (a app app2 : Application) (dsync : SyncOperation) (cur prev r : String) (s1 s2 s3 : σ)
    (hget : B.Get a.Namespace a.Name w.state = (.ok app, s1))
    (hop : app.Operation.bind (·.Sync) = some dsync)
    (hnone : getChangeRevision app = "")
    (hrevs : getRevisions a = some (cur, prev))
    (hrc : B.GetChangeRevision ⟨app.Name, app.Namespace, cur, prev⟩ s1 = (.ok ⟨some r⟩, s2))
    (hr : r ≠ "")
    (hget2 : B.Get app.Namespace app.Name s2 = (.ok app2, s3)) :
    (ChangeRevision B a false w).2.calls =
      w.calls ++ [Call.Get a.Namespace a.Name,
        Call.GetChangeRevision ⟨app.Name, app.Namespace, cur, prev⟩,
        Call.Get app.Namespace app.Name,
        Call.Patch a.Namespace a.Name (jsonEncode (.object
          (if (app2.Status.OperationState.bind (·.Operation.Sync)).isSome then
            patchOperationSyncResultWithChangeRevision app2 (some [r])
          else patchOperationWithChangeRevision app2 (some [r]))))] := by
  unfold ChangeRevision
  simp only [clientGet, hget, hop, hnone, hrevs, calculateRevision, hrc, hget2]
  by_cases hc : (app2.Status.OperationState.bind (·.Operation.Sync)).isSome = true
  · simp [hr, hc, StringSlice.len, patchOperationSyncResultWithChangeRevision, jsonMarshal,
      clientPatch]
  · simp [hr, hc, StringSlice.len, patchOperationWithChangeRevision, jsonMarshal,
      clientPatch]

/-- C7 (patch target and shape): when the Revision Computer returns a non-empty
revision `r` and annotation mirroring is off, the patch applied is the encoding
of exactly `{"status":{"operationState":{"operation":{"sync":{"changeRevision": r}}}}}`
if the re-read object has an operation-state sync sub-operation, and of exactly
`{"operation":{"sync":{"changeRevision": r}}}` otherwise: one top-level key and
the single-value key `changeRevision`. -/
theorem ChangeRevision_patch_shape {σ : Type} (B : Backend σ) (w : World σ)
    (a app app2 : Application) (dsync : SyncOperation) (cur prev r : String) (s1 s2 s3 : σ)
    (hget : B.Get a.Namespace a.Name w.state = (.ok app, s1))
    (hop : app.Operation.bind (·.Sync) = some dsync)
    (hnone : getChangeRevision app = "")
    (hrevs : getRevisions a = some (cur, prev))
    (hrc : B.GetChangeRevision ⟨app.Name, app.Namespace, cur, prev⟩ s1 = (.ok ⟨some r⟩, s2))
    (hr : r ≠ "")
    (hget2 : B.Get app.Namespace app.Name s2 = (.ok app2, s3)) :
    ((∃ os sync, app2.Status.OperationState = some os ∧ os.Operation.Sync = some sync) →
      (ChangeRevision B a false w).2.calls =
        w.calls ++ [Call.Get a.Namespace a.Name,
          Call.GetChangeRevision ⟨app.Name, app.Namespace, cur, prev⟩,
          Call.Get app.Namespace app.Name,
          Call.Patch a.Namespace a.Name (jsonEncode (.object
            [("status", .object [("operationState", .object [("operation",
              .object [("sync", .object [("changeRevision", .string r)])])])])]))]) ∧
    ((¬ ∃ os sync, app2.Status.OperationState = some os ∧ os.Operation.Sync = some sync) →
      (ChangeRevision B a false w).2.calls =
        w.calls ++ [Call.Get a.Namespace a.Name,
          Call.GetChangeRevision ⟨app.Name, app.Namespace, cur, prev⟩,
          Call.Get app.Namespace app.Name,
          Call.Patch a.Namespace a.Name (jsonEncode (.object
            [("operation", .object [("sync", .object
              [("changeRevision", .string r)])])]))]) ∧
    jsonEncode (.object [("status", .object [("operationState", .object [("operation",
        .object [("sync", .object [("changeRevision", .string r)])])])])]) =
      "\x7b\"status\":\x7b\"operationState\":\x7b\"operation\":\x7b\"sync\":\x7b\"changeRevision\":"
        ++ jsonString r ++ "\x7d\x7d\x7d\x7d\x7d" ∧
    jsonEncode (.object [("operation", .object [("sync", .object
        [("changeRevision", .string r)])])]) =
      "\x7b\"operation\":\x7b\"sync\":\x7b\"changeRevision\":" ++ jsonString r ++ "\x7d\x7d\x7d" := by
  have hcalls := ChangeRevision_patch_calls B w a app app2 dsync cur prev r s1 s2 s3
    hget hop hnone hrevs hrc hr hget2
  refine ⟨?_, ?_, jsonEncode_status_patch r, jsonEncode_operation_patch r⟩
  · rintro ⟨os, sync, hos, hsync⟩
    rw [hcalls]
    simp [hos, hsync, patchOperationSyncResultWithChangeRevision]
  · intro hno
    have hc : (app2.Status.OperationState.bind (·.Operation.Sync)).isSome = false := by
      cases hos : app2.Status.OperationState with
      | none => rfl
      | some os =>
        cases hsync : os.Operation.Sync with
        | none => simp [hsync]
        | some sync => exact absurd ⟨os, sync, hos, hsync⟩ hno
    rw [hcalls]
    simp [hc, patchOperationWithChangeRevision]

/-- Witness of C7: the re-read object has an operation-state sync
sub-operation, the Revision Computer answers `abc`, and the patch goes under
`status.operationState.operation.sync`. -/
theorem ChangeRevision_patch_shape_witness :
    (ChangeRevision (scriptedBackend firstSyncApp runningApp (some "abc")) firstSyncApp
        false ⟨0, []⟩).2.calls =
      [Call.Get "argocd" "guestbook",
        Call.GetChangeRevision ⟨"guestbook", "argocd", "R1", ""⟩,
        Call.Get "argocd" "guestbook",
        Call.Patch "argocd" "guestbook"
          "\x7b\"status\":\x7b\"operationState\":\x7b\"operation\":\x7b\"sync\":\x7b\"changeRevision\":\"abc\"\x7d\x7d\x7d\x7d\x7d"] := by
  have h := (ChangeRevision_patch_shape (scriptedBackend firstSyncApp runningApp (some "abc"))
    ⟨0, []⟩ firstSyncApp firstSyncApp runningApp ⟨"R1", "", []⟩ "R1" "" "abc" 1 1 2
    rfl rfl rfl rfl rfl (by decide) rfl).1
    ⟨{ Operation := syncTo "R1", SyncResult := none }, ⟨"R1", "", []⟩, rfl, rfl⟩
  rw [h]
  decide

/-- C8 (code evaluated at the failing input): both reads succeed and the
Revision Computer returns a nil revision without error; with annotation
mirroring on, `ChangeRevision` panics on `*revision` after the second read.
With mirroring off the same run returns `nil` without a patch, and an
empty-string revision with mirroring on returns `nil`. -/
theorem ChangeRevision_nil_revision_panics :
    ChangeRevision (scriptedBackend firstSyncApp firstSyncApp none) firstSyncApp true ⟨0, []⟩ =
      (Result.panic, ⟨2, [Call.Get "argocd" "guestbook",
        Call.GetChangeRevision ⟨"guestbook", "argocd", "R1", ""⟩,
        Call.Get "argocd" "guestbook"]⟩) ∧
    ChangeRevision (scriptedBackend firstSyncApp firstSyncApp none) firstSyncApp false ⟨0, []⟩ =
      (Result.ok, ⟨2, [Call.Get "argocd" "guestbook",
        Call.GetChangeRevision ⟨"guestbook", "argocd", "R1", ""⟩,
        Call.Get "argocd" "guestbook"]⟩) ∧
    (ChangeRevision (scriptedBackend firstSyncApp firstSyncApp (some "")) firstSyncApp true
      ⟨0, []⟩).1 = Result.ok := by
  decide

/-! ## Annotation mirroring: theorems -/

/-- Reading a map after `mapSet`: the key just set holds the new value, every other key is unchanged. -/
theorem mapGet_mapSet {α : Type} (m : List (String × α)) (key : String) (val : α)
    (k : String) :
    mapGet (mapSet m key val) k = if key = k then some val else mapGet m k := by
  induction m with
  | nil => simp [mapSet, mapGet]
  | cons e rest ih =>
    obtain ⟨k0, v0⟩ := e
    unfold mapSet
    by_cases h0 : k0 = key
    · subst h0
      by_cases hk : k0 = k <;> simp [mapGet, hk]
    · by_cases hlt : stringLess key k0
      · simp [h0, hlt, mapGet]
      · simp only [h0, hlt, if_false, mapGet, ih]
        by_cases hk : key = k
        · subst hk
          simp [h0]
        · simp [hk]

/-- Reading the annotation map after `addPatchIfNeeded`: `key` is set to `val`
exactly when the current annotations do not already hold `val` under `key`. -/
theorem mapGet_addPatchIfNeeded (annotations currentAnnotations : List (String × String))
    (key val k : String) :
    mapGet (addPatchIfNeeded annotations currentAnnotations key val) k =
      if key = k ∧ mapGet currentAnnotations key ≠ some val then some val
      else mapGet annotations k := by
  unfold addPatchIfNeeded
  cases hcur : mapGet currentAnnotations key with
  | none => simp [mapGet_mapSet]
  | some currentVal =>
    by_cases hv : currentVal = val
    · simp [hv]
    · simp [hv, mapGet_mapSet]

/-- C9 (diff-minimal annotation keys): `addAnnotationPatch` stores under
`metadata.annotations` a map that holds one of the four annotation keys exactly
when the existing annotations lack the key or hold another value than the
proposed one; an included key maps to the proposed value (the change revision,
the JSON text of the change revisions, the git revision, the JSON text of the
git revisions) and no other key is included. -/
theorem addAnnotationPatch_diff_minimal (m : PatchMap) (a : Application)
    (changeRevision : String) (changeRevisions : StringSlice) (gitRevision : String)
    (gitRevisions : StringSlice) :
    ∃ annotations : List (String × String),
      addAnnotationPatch m a changeRevision changeRevisions gitRevision gitRevisions =
        .ok (mapSet m "metadata" (.object [("annotations", .stringMap annotations)])) ∧
      (∀ key proposed,
        (key, proposed) ∈ [(CHANGE_REVISION_ANN, changeRevision),
          (CHANGE_REVISIONS_ANN, jsonStrings changeRevisions),
          (GIT_REVISION_ANN, gitRevision),
          (GIT_REVISIONS_ANN, jsonStrings gitRevisions)] →
        ((mapGet annotations key).isSome = true ↔
          (mapGet a.Annotations key = none ∨
            ∃ v, mapGet a.Annotations key = some v ∧ v ≠ proposed)) ∧
        (∀ v, mapGet annotations key = some v → v = proposed)) ∧
      (∀ key, key ∉ [CHANGE_REVISION_ANN, CHANGE_REVISIONS_ANN, GIT_REVISION_ANN,
          GIT_REVISIONS_ANN] → mapGet annotations key = none) := by
  refine ⟨_, rfl, ?_, ?_⟩
  · intro key proposed hmem
    have hne : ∀ (o : Option String) (p : String),
        o ≠ some p ↔ (o = none ∨ ∃ v, o = some v ∧ v ≠ p) := by
      intro o p
      cases o with
      | none => simp
      | some x => simp
    have h12 : CHANGE_REVISION_ANN ≠ CHANGE_REVISIONS_ANN := by decide
    have h13 : CHANGE_REVISION_ANN ≠ GIT_REVISION_ANN := by decide
    have h14 : CHANGE_REVISION_ANN ≠ GIT_REVISIONS_ANN := by decide
    have h23 : CHANGE_REVISIONS_ANN ≠ GIT_REVISION_ANN := by decide
    have h24 : CHANGE_REVISIONS_ANN ≠ GIT_REVISIONS_ANN := by decide
    have h34 : GIT_REVISION_ANN ≠ GIT_REVISIONS_ANN := by decide
    simp only [List.mem_cons, Prod.mk.injEq, List.mem_singleton, List.not_mem_nil,
      or_false] at hmem
    simp only [jsonMarshalStrings, mapGet_addPatchIfNeeded, ← hne]
    rcases hmem with ⟨rfl, rfl⟩ | ⟨rfl, rfl⟩ | ⟨rfl, rfl⟩ | ⟨rfl, rfl⟩
    · by_cases hc : mapGet a.Annotations CHANGE_REVISION_ANN = some proposed
      · simp [hc, h12.symm, h13.symm, h14.symm, mapGet]
      · simp [hc, h12.symm, h13.symm, h14.symm, mapGet]
    · by_cases hc : mapGet a.Annotations CHANGE_REVISIONS_ANN = some (jsonStrings changeRevisions)
      · simp [hc, h12, h23.symm, h24.symm, mapGet]
      · simp [hc, h12, h23.symm, h24.symm, mapGet]
    · by_cases hc : mapGet a.Annotations GIT_REVISION_ANN = some proposed
      · simp [hc, h13, h23, h34.symm, mapGet]
      · simp [hc, h13, h23, h34.symm, mapGet]
    · by_cases hc : mapGet a.Annotations GIT_REVISIONS_ANN = some (jsonStrings gitRevisions)
      · simp [hc, h14, h24, h34, mapGet]
      · simp [hc, h14, h24, h34, mapGet]
  · intro key hkey
    simp only [List.mem_cons, List.mem_singleton, List.not_mem_nil, or_false, not_or] at hkey
    obtain ⟨h1, h2, h3, h4⟩ := hkey
    simp only [jsonMarshalStrings, mapGet_addPatchIfNeeded]
    simp [Ne.symm h1, Ne.symm h2, Ne.symm h3, Ne.symm h4, mapGet]

/-- Witness of C9: the existing annotations hold `git-revision = "R1"` and an
older `change-revision`; mirroring current revision `R1` and change revision
`abc` omits `git-revision` and includes `change-revision = "abc"`. -/
theorem addAnnotationPatch_diff_minimal_witness :
    ∃ annotations : List (String × String),
      addAnnotationPatch [] gitAnnotatedApp "abc" (some ["abc"]) "R1" (some ["R1"]) =
        .ok [("metadata", .object [("annotations", .stringMap annotations)])] ∧
      mapGet annotations GIT_REVISION_ANN = none ∧
      mapGet annotations CHANGE_REVISION_ANN = some "abc" := by
  obtain ⟨annotations, heq, hkeys, -⟩ :=
    addAnnotationPatch_diff_minimal [] gitAnnotatedApp "abc" (some ["abc"]) "R1" (some ["R1"])
  refine ⟨annotations, heq, ?_, ?_⟩
  · have h := (hkeys GIT_REVISION_ANN "R1" (by simp)).1
    cases hg : mapGet annotations GIT_REVISION_ANN with
    | none => rfl
    | some v =>
      have hex := h.mp (by simp [hg])
      have hcur : mapGet gitAnnotatedApp.Annotations GIT_REVISION_ANN = some "R1" := by decide
      rw [hcur] at hex
      simp at hex
  · have h := hkeys CHANGE_REVISION_ANN "abc" (by simp)
    have hcur : mapGet gitAnnotatedApp.Annotations CHANGE_REVISION_ANN = some "old" := by decide
    have hsome := h.1.mpr (Or.inr ⟨"old", hcur, by decide⟩)
    cases hg : mapGet annotations CHANGE_REVISION_ANN with
    | none => simp [hg] at hsome
    | some v => rw [h.2 v hg]

/-- C10 (code evaluated at the failing input): annotation mirroring is on, the
Revision Computer returns an empty revision, and the re-read object's
annotations already hold the four values the run proposes (`""`, `null`, `R1`,
`["R1"]`); the patch map still gets a `metadata` entry with an empty
`annotations` map, and the merge-patch call is made with it. -/
theorem ChangeRevision_patches_empty_annotations :
    addAnnotationPatch [] annotatedApp "" none "R1" (some ["R1"]) =
      .ok [("metadata", .object [("annotations", .stringMap [])])] ∧
    ChangeRevision (scriptedBackend annotatedApp annotatedApp (some "")) annotatedApp true
        ⟨0, []⟩ =
      (Result.ok, ⟨2, [Call.Get "argocd" "guestbook",
        Call.GetChangeRevision ⟨"guestbook", "argocd", "R1", ""⟩,
        Call.Get "argocd" "guestbook",
        Call.Patch "argocd" "guestbook" "\x7b\"metadata\":\x7b\"annotations\":\x7b\x7d\x7d\x7d"]⟩) := by
  constructor
  · rfl
  · decide

/-! ## Runs of `ChangeRevision`, step by step -/

/-- A failed first read ends the run with that error after one call. -/
theorem ChangeRevision_get_error {σ : Type} (B : Backend σ) (w : World σ) (a : Application)
    (useAnnotations : Bool) (e : GoError) (s1 : σ)
    (hget : B.Get a.Namespace a.Name w.state = (.error e, s1)) :
    ChangeRevision B a useAnnotations w =
      (Result.error e, ⟨s1, w.calls ++ [Call.Get a.Namespace a.Name]⟩) := by
  unfold ChangeRevision
  simp [clientGet, hget]

/-- Without a desired sync operation the run stops after the first read. -/
theorem ChangeRevision_no_desired_sync {σ : Type} (B : Backend σ) (w : World σ)
    (a app : Application) (useAnnotations : Bool) (s1 : σ)
    (hget : B.Get a.Namespace a.Name w.state = (.ok app, s1))
    (hop : app.Operation.bind (·.Sync) = none) :
    ChangeRevision B a useAnnotations w =
      (Result.ok, ⟨s1, w.calls ++ [Call.Get a.Namespace a.Name]⟩) := by
  unfold ChangeRevision
  simp [clientGet, hget, hop]

/-- A failed Revision Computer call ends the run with that error after two calls. -/
theorem ChangeRevision_compute_error {σ : Type} (B : Backend σ) (w : World σ)
    (a app : Application) (useAnnotations : Bool) (dsync : SyncOperation) (cur prev : String)
    (e : GoError) (s1 s2 : σ)
    (hget : B.Get a.Namespace a.Name w.state = (.ok app, s1))
    (hop : app.Operation.bind (·.Sync) = some dsync)
    (hnone : getChangeRevision app = "")
    (hrevs : getRevisions a = some (cur, prev))
    (hrc : B.GetChangeRevision ⟨app.Name, app.Namespace, cur, prev⟩ s1 = (.error e, s2)) :
    ChangeRevision B a useAnnotations w =
      (Result.error e, ⟨s2, w.calls ++ [Call.Get a.Namespace a.Name,
        Call.GetChangeRevision ⟨app.Name, app.Namespace, cur, prev⟩]⟩) := by
  unfold ChangeRevision
  simp [clientGet, hget, hop, hnone, hrevs, calculateRevision, hrc]

/-- A failed second read ends the run with that error after three calls. -/
theorem ChangeRevision_refetch_error {σ : Type} (B : Backend σ) (w : World σ)
    (a app : Application) (useAnnotations : Bool) (dsync : SyncOperation) (cur prev : String)
    (resp : ChangeRevisionResponse) (e : GoError) (s1 s2 s3 : σ)
    (hget : B.Get a.Namespace a.Name w.state = (.ok app, s1))
    (hop : app.Operation.bind (·.Sync) = some dsync)
    (hnone : getChangeRevision app = "")
    (hrevs : getRevisions a = some (cur, prev))
    (hrc : B.GetChangeRevision ⟨app.Name, app.Namespace, cur, prev⟩ s1 = (.ok resp, s2))
    (hget2 : B.Get app.Namespace app.Name s2 = (.error e, s3)) :
    ChangeRevision B a useAnnotations w =
      (Result.error e, ⟨s3, w.calls ++ [Call.Get a.Namespace a.Name,
        Call.GetChangeRevision ⟨app.Name, app.Namespace, cur, prev⟩,
        Call.Get app.Namespace app.Name]⟩) := by
  unfold ChangeRevision
  simp [clientGet, hget, hop, hnone, hrevs, calculateRevision, hrc, hget2]

/-- A map just written by `mapSet` is not empty. -/
theorem mapSet_length_pos {α : Type} (m : List (String × α)) (key : String) (val : α) :
    0 < (mapSet m key val).length := by
  cases m with
  | nil => simp [mapSet]
  | cons e rest =>
    obtain ⟨k0, v0⟩ := e
    unfold mapSet
    split_ifs <;> simp

/-- No revision resolved and annotation mirroring off: after the second read
the patch map is empty and the run returns `nil` without a patch call. -/
theorem ChangeRevision_empty_patch {σ : Type} (B : Backend σ) (w : World σ)
    (a app app2 : Application) (dsync : SyncOperation) (cur prev : String)
    (revision : Option String) (s1 s2 s3 : σ)
    (hget : B.Get a.Namespace a.Name w.state = (.ok app, s1))
    (hop : app.Operation.bind (·.Sync) = some dsync)
    (hnone : getChangeRevision app = "")
    (hrevs : getRevisions a = some (cur, prev))
    (hrc : B.GetChangeRevision ⟨app.Name, app.Namespace, cur, prev⟩ s1 = (.ok ⟨revision⟩, s2))
    (hrev : revision = none ∨ revision = some "")
    (hget2 : B.Get app.Namespace app.Name s2 = (.ok app2, s3)) :
    ChangeRevision B a false w =
      (Result.ok, ⟨s3, w.calls ++ [Call.Get a.Namespace a.Name,
        Call.GetChangeRevision ⟨app.Name, app.Namespace, cur, prev⟩,
        Call.Get app.Namespace app.Name]⟩) := by
  unfold ChangeRevision
  simp only [clientGet, hget, hop, hnone, hrevs, calculateRevision, hrc, hget2]
  rcases hrev with rfl | rfl <;> simp [StringSlice.len]

/-- A non-empty revision `r` and annotation mirroring off: the run makes the
patch call and returns what that call returns. -/
theorem ChangeRevision_patch_run {σ : Type} (B : Backend σ) (w : World σ)
    (a app app2 : Application) (dsync : SyncOperation) (cur prev r : String) (s1 s2 s3 : σ)
    (hget : B.Get a.Namespace a.Name w.state = (.ok app, s1))
    (hop : app.Operation.bind (·.Sync) = some dsync)
    (hnone : getChangeRevision app = "")
    (hrevs : getRevisions a = some (cur, prev))
    (hrc : B.GetChangeRevision ⟨app.Name, app.Namespace, cur, prev⟩ s1 = (.ok ⟨some r⟩, s2))
    (hr : r ≠ "")
    (hget2 : B.Get app.Namespace app.Name s2 = (.ok app2, s3)) :
    ChangeRevision B a false w =
      (returnErr (B.Patch a.Namespace a.Name (jsonEncode (.object
          (if (app2.Status.OperationState.bind (·.Operation.Sync)).isSome then
            patchOperationSyncResultWithChangeRevision app2 (some [r])
          else patchOperationWithChangeRevision app2 (some [r])))) s3).1,
        ⟨(B.Patch a.Namespace a.Name (jsonEncode (.object
          (if (app2.Status.OperationState.bind (·.Operation.Sync)).isSome then
            patchOperationSyncResultWithChangeRevision app2 (some [r])
          else patchOperationWithChangeRevision app2 (some [r])))) s3).2,
        w.calls ++ [Call.Get a.Namespace a.Name,
          Call.GetChangeRevision ⟨app.Name, app.Namespace, cur, prev⟩,
          Call.Get app.Namespace app.Name,
          Call.Patch a.Namespace a.Name (jsonEncode (.object
            (if (app2.Status.OperationState.bind (·.Operation.Sync)).isSome then
              patchOperationSyncResultWithChangeRevision app2 (some [r])
            else patchOperationWithChangeRevision app2 (some [r]))))]⟩) := by
  unfold ChangeRevision
  simp only [clientGet, hget, hop, hnone, hrevs, calculateRevision, hrc, hget2]
  by_cases hc : (app2.Status.OperationState.bind (·.Operation.Sync)).isSome = true
  · simp [hr, hc, StringSlice.len, patchOperationSyncResultWithChangeRevision, jsonMarshal,
      clientPatch]
  · simp [hr, hc, StringSlice.len, patchOperationWithChangeRevision, jsonMarshal,
      clientPatch]

/-- A nil revision with annotation mirroring on: the run panics after the second read. -/
theorem ChangeRevision_nil_annotated {σ : Type} (B : Backend σ) (w : World σ)
    (a app app2 : Application) (dsync : SyncOperation) (cur prev : String) (s1 s2 s3 : σ)
    (hget : B.Get a.Namespace a.Name w.state = (.ok app, s1))
    (hop : app.Operation.bind (·.Sync) = some dsync)
    (hnone : getChangeRevision app = "")
    (hrevs : getRevisions a = some (cur, prev))
    (hrc : B.GetChangeRevision ⟨app.Name, app.Namespace, cur, prev⟩ s1 = (.ok ⟨none⟩, s2))
    (hget2 : B.Get app.Namespace app.Name s2 = (.ok app2, s3)) :
    ChangeRevision B a true w =
      (Result.panic, ⟨s3, w.calls ++ [Call.Get a.Namespace a.Name,
        Call.GetChangeRevision ⟨app.Name, app.Namespace, cur, prev⟩,
        Call.Get app.Namespace app.Name]⟩) := by
  unfold ChangeRevision
  simp [clientGet, hget, hop, hnone, hrevs, calculateRevision, hrc, hget2]

/-- A non-nil revision `r` with annotation mirroring on: the patch map is the
revision patch (none for an empty `r`) with `metadata.annotations` set by
`addPatchIfNeeded` for the four keys, and the run makes the patch call. -/
theorem ChangeRevision_annotated_run {σ : Type} (B : Backend σ) (w : World σ)
    (a app app2 : Application) (dsync : SyncOperation) (cur prev r : String) (s1 s2 s3 : σ)
    (hget : B.Get a.Namespace a.Name w.state = (.ok app, s1))
    (hop : app.Operation.bind (·.Sync) = some dsync)
    (hnone : getChangeRevision app = "")
    (hrevs : getRevisions a = some (cur, prev))
    (hrc : B.GetChangeRevision ⟨app.Name, app.Namespace, cur, prev⟩ s1 = (.ok ⟨some r⟩, s2))
    (hget2 : B.Get app.Namespace app.Name s2 = (.ok app2, s3))
    (patch : String)
    (hpatch : patch = jsonEncode (.object (mapSet
      (if r = "" then []
        else if (app2.Status.OperationState.bind (·.Operation.Sync)).isSome then
          patchOperationSyncResultWithChangeRevision app2 (some [r])
        else patchOperationWithChangeRevision app2 (some [r]))
      "metadata" (.object [("annotations", .stringMap
        (addPatchIfNeeded (addPatchIfNeeded (addPatchIfNeeded (addPatchIfNeeded []
          app2.Annotations CHANGE_REVISION_ANN r)
          app2.Annotations CHANGE_REVISIONS_ANN (if r = "" then "null" else "[" ++ jsonString r ++ "]"))
          app2.Annotations GIT_REVISION_ANN cur)
          app2.Annotations GIT_REVISIONS_ANN ("[" ++ jsonString cur ++ "]")))])))) :
    ChangeRevision B a true w =
      (returnErr (B.Patch a.Namespace a.Name patch s3).1,
        ⟨(B.Patch a.Namespace a.Name patch s3).2,
        w.calls ++ [Call.Get a.Namespace a.Name,
          Call.GetChangeRevision ⟨app.Name, app.Namespace, cur, prev⟩,
          Call.Get app.Namespace app.Name,
          Call.Patch a.Namespace a.Name patch]⟩) := by
  subst hpatch
  unfold ChangeRevision
  simp only [clientGet, hget, hop, hnone, hrevs, calculateRevision, hrc, hget2]
  by_cases hr : r = ""
  · simp [hr, StringSlice.len, addAnnotationPatch, jsonMarshalStrings, jsonStrings,
      jsonStringList, mapSet_length_pos, jsonMarshal, clientPatch]
  · by_cases hc : (app2.Status.OperationState.bind (·.Operation.Sync)).isSome = true
    · simp [hr, hc, StringSlice.len, addAnnotationPatch, jsonMarshalStrings, jsonStrings,
        jsonStringList, mapSet_length_pos, jsonMarshal, clientPatch]
    · simp [hr, hc, StringSlice.len, addAnnotationPatch, jsonMarshalStrings, jsonStrings,
        jsonStringList, mapSet_length_pos, jsonMarshal, clientPatch]

/-- After a successful second read the run panics with three calls made, or
returns `nil` with three calls made, or makes the patch call as fourth call and
returns what that call returns. -/
theorem ChangeRevision_after_refetch {σ : Type} (B : Backend σ) (w : World σ)
    (a app app2 : Application) (useAnnotations : Bool) (dsync : SyncOperation)
    (cur prev : String) (resp : ChangeRevisionResponse) (s1 s2 s3 : σ)
    (hget : B.Get a.Namespace a.Name w.state = (.ok app, s1))
    (hop : app.Operation.bind (·.Sync) = some dsync)
    (hnone : getChangeRevision app = "")
    (hrevs : getRevisions a = some (cur, prev))
    (hrc : B.GetChangeRevision ⟨app.Name, app.Namespace, cur, prev⟩ s1 = (.ok resp, s2))
    (hget2 : B.Get app.Namespace app.Name s2 = (.ok app2, s3)) :
    ChangeRevision B a useAnnotations w =
      (Result.panic, ⟨s3, w.calls ++ [Call.Get a.Namespace a.Name,
        Call.GetChangeRevision ⟨app.Name, app.Namespace, cur, prev⟩,
        Call.Get app.Namespace app.Name]⟩) ∨
    ChangeRevision B a useAnnotations w =
      (Result.ok, ⟨s3, w.calls ++ [Call.Get a.Namespace a.Name,
        Call.GetChangeRevision ⟨app.Name, app.Namespace, cur, prev⟩,
        Call.Get app.Namespace app.Name]⟩) ∨
    ∃ patch, ChangeRevision B a useAnnotations w =
      (returnErr (B.Patch a.Namespace a.Name patch s3).1,
        ⟨(B.Patch a.Namespace a.Name patch s3).2, w.calls ++ [Call.Get a.Namespace a.Name,
          Call.GetChangeRevision ⟨app.Name, app.Namespace, cur, prev⟩,
          Call.Get app.Namespace app.Name, Call.Patch a.Namespace a.Name patch]⟩) := by
  obtain ⟨revision⟩ := resp
  cases useAnnotations with
  | false =>
    cases revision with
    | none =>
      exact Or.inr (Or.inl (ChangeRevision_empty_patch B w a app app2 dsync cur prev none
        s1 s2 s3 hget hop hnone hrevs hrc (Or.inl rfl) hget2))
    | some r =>
      by_cases hr : r = ""
      · subst hr
        exact Or.inr (Or.inl (ChangeRevision_empty_patch B w a app app2 dsync cur prev
          (some "") s1 s2 s3 hget hop hnone hrevs hrc (Or.inr rfl) hget2))
      · exact Or.inr (Or.inr ⟨_, ChangeRevision_patch_run B w a app app2 dsync cur prev r
          s1 s2 s3 hget hop hnone hrevs hrc hr hget2⟩)
  | true =>
    cases revision with
    | none =>
      exact Or.inl (ChangeRevision_nil_annotated B w a app app2 dsync cur prev s1 s2 s3
        hget hop hnone hrevs hrc hget2)
    | some r =>
      exact Or.inr (Or.inr ⟨_, ChangeRevision_annotated_run B w a app app2 dsync cur prev r
        s1 s2 s3 hget hop hnone hrevs hrc hget2 _ rfl⟩)

/-- Every invocation of `ChangeRevision` starts with the read of the event's
object: the call log grows by at least that `Get`. -/
theorem ChangeRevision_starts_with_get {σ : Type} (B : Backend σ) (w : World σ)
    (a : Application) (useAnnotations : Bool) :
    (w.calls ++ [Call.Get a.Namespace a.Name]) <+:
      (ChangeRevision B a useAnnotations w).2.calls := by
  rcases hget : B.Get a.Namespace a.Name w.state with ⟨e | app, s1⟩
  · rw [ChangeRevision_get_error B w a useAnnotations e s1 hget]
  · cases hop : app.Operation.bind (·.Sync) with
    | none => rw [ChangeRevision_no_desired_sync B w a app useAnnotations s1 hget hop]
    | some dsync =>
      by_cases hnone : getChangeRevision app = ""
      · have hsome := getRevisions_isSome a
        cases hrevs : getRevisions a with
        | none => simp [hrevs] at hsome
        | some p =>
          obtain ⟨cur, prev⟩ := p
          have h := ChangeRevision_reaches_compute B w a app useAnnotations dsync cur prev s1
            hget hop hnone hrevs
          refine List.IsPrefix.trans ?_ h
          exact ⟨[Call.GetChangeRevision ⟨app.Name, app.Namespace, cur, prev⟩], by simp⟩
      · have hget1 : (B.Get a.Namespace a.Name w.state).1 = .ok app := by rw [hget]
        rw [ChangeRevision_already_resolved B w a app useAnnotations hget1 hnone]

/-! ## Not-applicable and empty-patch runs -/

/-- C13 (nothing to resolve without a desired sync operation): when the
fetched Application has no desired operation, or a desired operation without a
sync sub-operation, `ChangeRevision` returns no error and its only call is the
first read (no Revision Computer call, no patch), whatever the rest of the
object holds and for either value of `useAnnotations`. -/
theorem ChangeRevision_nothing_to_resolve {σ : Type} (B : Backend σ) (w : World σ)
    (a app : Application) (useAnnotations : Bool) (s1 : σ)
    (hget : B.Get a.Namespace a.Name w.state = (.ok app, s1))
    (hno : app.Operation = none ∨ ∃ op, app.Operation = some op ∧ op.Sync = none) :
    (ChangeRevision B a useAnnotations w).1 = Result.ok ∧
    (ChangeRevision B a useAnnotations w).2.calls = w.calls ++ [Call.Get a.Namespace a.Name] ∧
    (ChangeRevision B a useAnnotations w).2.state = s1 := by
  have hop : app.Operation.bind (·.Sync) = none := by
    rcases hno with h | ⟨op, h, hs⟩
    · simp [h]
    · simp [h, hs]
  rw [ChangeRevision_no_desired_sync B w a app useAnnotations s1 hget hop]
  exact ⟨rfl, rfl, rfl⟩

/-- Witness of C13: an object without desired operation but with history,
operation state and annotations, annotation mirroring on. -/
theorem ChangeRevision_nothing_to_resolve_witness :
    (ChangeRevision (scriptedBackend idleApp idleApp (some "abc")) idleApp true ⟨0, []⟩).1 =
      Result.ok ∧
    (ChangeRevision (scriptedBackend idleApp idleApp (some "abc")) idleApp true ⟨0, []⟩).2.calls =
      [Call.Get "argocd" "guestbook"] ∧
    (ChangeRevision (scriptedBackend idleApp idleApp (some "abc")) idleApp true ⟨0, []⟩).2.state =
      1 :=
  ChangeRevision_nothing_to_resolve (scriptedBackend idleApp idleApp (some "abc")) ⟨0, []⟩
    idleApp idleApp true 1 rfl (Or.inl rfl)

/-- C12 (claim as stated fails): the Revision Computer returns a nil revision
without error and annotation mirroring is off, but the second read of the
Object Store fails; `ChangeRevision` makes no patch call and returns that
error, not `nil`. -/
theorem ChangeRevision_empty_revision_refetch_fails :
    ChangeRevision (faultyBackend firstSyncApp firstSyncApp none 2) firstSyncApp false
        ⟨0, []⟩ =
      (Result.error "unavailable", ⟨3, [Call.Get "argocd" "guestbook",
        Call.GetChangeRevision ⟨"guestbook", "argocd", "R1", ""⟩,
        Call.Get "argocd" "guestbook"]⟩) := by
  decide

/-- C12 (amended, empty patch is a no-op): when the Revision Computer returns
a nil or empty revision without error and annotation mirroring is off, the
calls of `ChangeRevision` are the first read, the Revision Computer call and
the second read, so no merge-patch call is made. When the second read succeeds
the patch map is empty and the run returns no error; when the second read
fails the run returns that error. -/
theorem ChangeRevision_empty_patch_noop {σ : Type} (B : Backend σ) (w : World σ)
    (a app : Application) (dsync : SyncOperation) (cur prev : String)
    (revision : Option String) (s1 s2 : σ)
    (hget : B.Get a.Namespace a.Name w.state = (.ok app, s1))
    (hop : app.Operation.bind (·.Sync) = some dsync)
    (hnone : getChangeRevision app = "")
    (hrevs : getRevisions a = some (cur, prev))
    (hrc : B.GetChangeRevision ⟨app.Name, app.Namespace, cur, prev⟩ s1 = (.ok ⟨revision⟩, s2))
    (hrev : revision = none ∨ revision = some "") :
    (ChangeRevision B a false w).2.calls =
      w.calls ++ [Call.Get a.Namespace a.Name,
        Call.GetChangeRevision ⟨app.Name, app.Namespace, cur, prev⟩,
        Call.Get app.Namespace app.Name] ∧
    (∀ app2 s3, B.Get app.Namespace app.Name s2 = (.ok app2, s3) →
      ChangeRevision B a false w =
        (Result.ok, ⟨s3, w.calls ++ [Call.Get a.Namespace a.Name,
          Call.GetChangeRevision ⟨app.Name, app.Namespace, cur, prev⟩,
          Call.Get app.Namespace app.Name]⟩)) ∧
    (∀ e s3, B.Get app.Namespace app.Name s2 = (.error e, s3) →
      ChangeRevision B a false w =
        (Result.error e, ⟨s3, w.calls ++ [Call.Get a.Namespace a.Name,
          Call.GetChangeRevision ⟨app.Name, app.Namespace, cur, prev⟩,
          Call.Get app.Namespace app.Name]⟩)) := by
  refine ⟨?_, ?_, ?_⟩
  · rcases hget2 : B.Get app.Namespace app.Name s2 with ⟨e | app2, s3⟩
    · rw [ChangeRevision_refetch_error B w a app false dsync cur prev ⟨revision⟩ e s1 s2 s3
        hget hop hnone hrevs hrc hget2]
    · rw [ChangeRevision_empty_patch B w a app app2 dsync cur prev revision s1 s2 s3
        hget hop hnone hrevs hrc hrev hget2]
  · intro app2 s3 hget2
    exact ChangeRevision_empty_patch B w a app app2 dsync cur prev revision s1 s2 s3
      hget hop hnone hrevs hrc hrev hget2
  · intro e s3 hget2
    exact ChangeRevision_refetch_error B w a app false dsync cur prev ⟨revision⟩ e s1 s2 s3
      hget hop hnone hrevs hrc hget2

/-- Witness of the amended C12: the Revision Computer returns a nil revision,
mirroring is off and both reads succeed; the run returns `nil` after the second
read without a patch call. -/
theorem ChangeRevision_empty_patch_noop_witness :
    ChangeRevision (scriptedBackend firstSyncApp firstSyncApp none) firstSyncApp false ⟨0, []⟩ =
      (Result.ok, ⟨2, [Call.Get "argocd" "guestbook",
        Call.GetChangeRevision ⟨"guestbook", "argocd", "R1", ""⟩,
        Call.Get "argocd" "guestbook"]⟩) :=
  (ChangeRevision_empty_patch_noop (scriptedBackend firstSyncApp firstSyncApp none) ⟨0, []⟩
    firstSyncApp firstSyncApp ⟨"R1", "", []⟩ "R1" "" none 1 1
    rfl rfl rfl rfl rfl (Or.inl rfl)).2.1 firstSyncApp 2 rfl

/-! ## Backend errors -/

/-- C14 (backend errors are surfaced and leave the object unpatched): a failed
first read, a failed Revision Computer call and a failed second read each end
`ChangeRevision` with exactly that error and without a merge-patch call; when
the merge-patch call is made and fails, its error is returned; and the run
returns `nil` only when it stopped as not applicable after the first read, or
reached an empty patch after the second read, or made a patch call that
succeeded. -/
theorem ChangeRevision_errors_surfaced {σ : Type} (B : Backend σ) (w : World σ)
    (a : Application) (useAnnotations : Bool) :
    (∀ e s1, B.Get a.Namespace a.Name w.state = (.error e, s1) →
      ChangeRevision B a useAnnotations w =
        (Result.error e, ⟨s1, w.calls ++ [Call.Get a.Namespace a.Name]⟩)) ∧
    (∀ app dsync cur prev e s1 s2,
      B.Get a.Namespace a.Name w.state = (.ok app, s1) →
      app.Operation.bind (·.Sync) = some dsync → getChangeRevision app = "" →
      getRevisions a = some (cur, prev) →
      B.GetChangeRevision ⟨app.Name, app.Namespace, cur, prev⟩ s1 = (.error e, s2) →
      ChangeRevision B a useAnnotations w =
        (Result.error e, ⟨s2, w.calls ++ [Call.Get a.Namespace a.Name,
          Call.GetChangeRevision ⟨app.Name, app.Namespace, cur, prev⟩]⟩)) ∧
    (∀ app dsync cur prev resp e s1 s2 s3,
      B.Get a.Namespace a.Name w.state = (.ok app, s1) →
      app.Operation.bind (·.Sync) = some dsync → getChangeRevision app = "" →
      getRevisions a = some (cur, prev) →
      B.GetChangeRevision ⟨app.Name, app.Namespace, cur, prev⟩ s1 = (.ok resp, s2) →
      B.Get app.Namespace app.Name s2 = (.error e, s3) →
      ChangeRevision B a useAnnotations w =
        (Result.error e, ⟨s3, w.calls ++ [Call.Get a.Namespace a.Name,
          Call.GetChangeRevision ⟨app.Name, app.Namespace, cur, prev⟩,
          Call.Get app.Namespace app.Name]⟩)) ∧
    (∀ app dsync cur prev resp app2 s1 s2 s3 patch e s4,
      B.Get a.Namespace a.Name w.state = (.ok app, s1) →
      app.Operation.bind (·.Sync) = some dsync → getChangeRevision app = "" →
      getRevisions a = some (cur, prev) →
      B.GetChangeRevision ⟨app.Name, app.Namespace, cur, prev⟩ s1 = (.ok resp, s2) →
      B.Get app.Namespace app.Name s2 = (.ok app2, s3) →
      (ChangeRevision B a useAnnotations w).2.calls =
        w.calls ++ [Call.Get a.Namespace a.Name,
          Call.GetChangeRevision ⟨app.Name, app.Namespace, cur, prev⟩,
          Call.Get app.Namespace app.Name, Call.Patch a.Namespace a.Name patch] →
      B.Patch a.Namespace a.Name patch s3 = (.error e, s4) →
      (ChangeRevision B a useAnnotations w).1 = Result.error e) ∧
    ((ChangeRevision B a useAnnotations w).1 = Result.ok →
      ∃ app s1, B.Get a.Namespace a.Name w.state = (.ok app, s1) ∧
        (((app.Operation.bind (·.Sync) = none ∨ getChangeRevision app ≠ "") ∧
          (ChangeRevision B a useAnnotations w).2.calls =
            w.calls ++ [Call.Get a.Namespace a.Name]) ∨
        (∃ cur prev, (ChangeRevision B a useAnnotations w).2.calls =
          w.calls ++ [Call.Get a.Namespace a.Name,
            Call.GetChangeRevision ⟨app.Name, app.Namespace, cur, prev⟩,
            Call.Get app.Namespace app.Name]) ∨
        (∃ cur prev patch s3 s4, (ChangeRevision B a useAnnotations w).2.calls =
          w.calls ++ [Call.Get a.Namespace a.Name,
            Call.GetChangeRevision ⟨app.Name, app.Namespace, cur, prev⟩,
            Call.Get app.Namespace app.Name, Call.Patch a.Namespace a.Name patch] ∧
          B.Patch a.Namespace a.Name patch s3 = (.ok (), s4)))) := by
  refine ⟨?_, ?_, ?_, ?_, ?_⟩
  · intro e s1 hget
    exact ChangeRevision_get_error B w a useAnnotations e s1 hget
  · intro app dsync cur prev e s1 s2 hget hop hnone hrevs hrc
    exact ChangeRevision_compute_error B w a app useAnnotations dsync cur prev e s1 s2
      hget hop hnone hrevs hrc
  · intro app dsync cur prev resp e s1 s2 s3 hget hop hnone hrevs hrc hget2
    exact ChangeRevision_refetch_error B w a app useAnnotations dsync cur prev resp e s1 s2 s3
      hget hop hnone hrevs hrc hget2
  · intro app dsync cur prev resp app2 s1 s2 s3 patch e s4 hget hop hnone hrevs hrc hget2
      hcalls hpatch
    rcases ChangeRevision_after_refetch B w a app app2 useAnnotations dsync cur prev resp
      s1 s2 s3 hget hop hnone hrevs hrc hget2 with h | h | ⟨p, h⟩
    · rw [h] at hcalls
      have := congrArg List.length hcalls
      simp at this
    · rw [h] at hcalls
      have := congrArg List.length hcalls
      simp at this
    · rw [h] at hcalls
      have hp : p = patch := by
        have := List.append_cancel_left hcalls
        simpa using this
      subst hp
      rw [h, hpatch]
      rfl
  · intro hok
    rcases hget : B.Get a.Namespace a.Name w.state with ⟨e | app, s1⟩
    · rw [ChangeRevision_get_error B w a useAnnotations e s1 hget] at hok
      simp at hok
    · refine ⟨app, s1, rfl, ?_⟩
      cases hop : app.Operation.bind (·.Sync) with
      | none =>
        refine Or.inl ⟨Or.inl rfl, ?_⟩
        rw [ChangeRevision_no_desired_sync B w a app useAnnotations s1 hget hop]
      | some dsync =>
        by_cases hnone : getChangeRevision app = ""
        · have hsome := getRevisions_isSome a
          cases hrevs : getRevisions a with
          | none => simp [hrevs] at hsome
          | some p =>
            obtain ⟨cur, prev⟩ := p
            rcases hrc : B.GetChangeRevision ⟨app.Name, app.Namespace, cur, prev⟩ s1 with
              ⟨e | resp, s2⟩
            · rw [ChangeRevision_compute_error B w a app useAnnotations dsync cur prev e s1 s2
                hget hop hnone hrevs hrc] at hok
              simp at hok
            · rcases hget2 : B.Get app.Namespace app.Name s2 with ⟨e | app2, s3⟩
              · rw [ChangeRevision_refetch_error B w a app useAnnotations dsync cur prev resp e
                  s1 s2 s3 hget hop hnone hrevs hrc hget2] at hok
                simp at hok
              · rcases ChangeRevision_after_refetch B w a app app2 useAnnotations dsync cur prev
                  resp s1 s2 s3 hget hop hnone hrevs hrc hget2 with h | h | ⟨patch, h⟩
                · rw [h] at hok
                  simp at hok
                · exact Or.inr (Or.inl ⟨cur, prev, by rw [h]⟩)
                · refine Or.inr (Or.inr ⟨cur, prev, patch, s3,
                    (B.Patch a.Namespace a.Name patch s3).2, by rw [h], ?_⟩)
                  rw [h] at hok
                  rcases hp : B.Patch a.Namespace a.Name patch s3 with ⟨e | u, s4⟩
                  · simp [hp, returnErr] at hok
                  · rfl
        · have hget1 : (B.Get a.Namespace a.Name w.state).1 = .ok app := by rw [hget]
          refine Or.inl ⟨Or.inr hnone, ?_⟩
          rw [ChangeRevision_already_resolved B w a app useAnnotations hget1 hnone]

/-- Witness of C14: with the first read, the Revision Computer call, the second
read or the patch call failing, the run returns that error; in the first three
runs no patch call is made. -/
theorem ChangeRevision_errors_surfaced_witness :
    ChangeRevision (faultyBackend firstSyncApp firstSyncApp (some "abc") 0) firstSyncApp false
        ⟨0, []⟩ =
      (Result.error "unavailable", ⟨1, [Call.Get "argocd" "guestbook"]⟩) ∧
    ChangeRevision (faultyBackend firstSyncApp firstSyncApp (some "abc") 1) firstSyncApp false
        ⟨0, []⟩ =
      (Result.error "unavailable", ⟨2, [Call.Get "argocd" "guestbook",
        Call.GetChangeRevision ⟨"guestbook", "argocd", "R1", ""⟩]⟩) ∧
    ChangeRevision (faultyBackend firstSyncApp firstSyncApp (some "abc") 2) firstSyncApp false
        ⟨0, []⟩ =
      (Result.error "unavailable", ⟨3, [Call.Get "argocd" "guestbook",
        Call.GetChangeRevision ⟨"guestbook", "argocd", "R1", ""⟩,
        Call.Get "argocd" "guestbook"]⟩) ∧
    (ChangeRevision (faultyBackend firstSyncApp firstSyncApp (some "abc") 3) firstSyncApp false
        ⟨0, []⟩).1 = Result.error "unavailable" :=
  ⟨(ChangeRevision_errors_surfaced (faultyBackend firstSyncApp firstSyncApp (some "abc") 0)
      ⟨0, []⟩ firstSyncApp false).1 "unavailable" 1 rfl,
    (ChangeRevision_errors_surfaced (faultyBackend firstSyncApp firstSyncApp (some "abc") 1)
      ⟨0, []⟩ firstSyncApp false).2.1 firstSyncApp ⟨"R1", "", []⟩ "R1" "" "unavailable" 1 2
      rfl rfl rfl rfl rfl,
    (ChangeRevision_errors_surfaced (faultyBackend firstSyncApp firstSyncApp (some "abc") 2)
      ⟨0, []⟩ firstSyncApp false).2.2.1 firstSyncApp ⟨"R1", "", []⟩ "R1" "" ⟨some "abc"⟩
      "unavailable" 1 2 3 rfl rfl rfl rfl rfl rfl,
    (ChangeRevision_errors_surfaced (faultyBackend firstSyncApp firstSyncApp (some "abc") 3)
      ⟨0, []⟩ firstSyncApp false).2.2.2.1 firstSyncApp ⟨"R1", "", []⟩ "R1" "" ⟨some "abc"⟩
      firstSyncApp 1 2 3 "\x7b\"operation\":\x7b\"sync\":\x7b\"changeRevision\":\"abc\"\x7d\x7d\x7d"
      "unavailable" 4 rfl rfl rfl rfl rfl rfl (by decide) rfl⟩

/-! ## Annotation values -/

set_option maxRecDepth 10000 in
/-- C11 (claim as stated fails): annotation mirroring is on and the Revision
Computer returns the empty (non-nil) revision, so no revision is resolved; the
value written for `change-revisions` is `null`, the encoding of the nil slice,
not the empty JSON array `[]`. -/
theorem ChangeRevision_change_revisions_null :
    ChangeRevision (scriptedBackend firstSyncApp firstSyncApp (some "")) firstSyncApp true
        ⟨0, []⟩ =
      (Result.ok, ⟨2, [Call.Get "argocd" "guestbook",
        Call.GetChangeRevision ⟨"guestbook", "argocd", "R1", ""⟩,
        Call.Get "argocd" "guestbook",
        Call.Patch "argocd" "guestbook"
          "\x7b\"metadata\":\x7b\"annotations\":\x7b\"mrp-controller.argoproj.io/change-revision\":\"\",\"mrp-controller.argoproj.io/change-revisions\":\"null\",\"mrp-controller.argoproj.io/git-revision\":\"R1\",\"mrp-controller.argoproj.io/git-revisions\":\"[\\\"R1\\\"]\"\x7d\x7d\x7d"]⟩) ∧
    jsonStrings none = "null" ∧ jsonStrings none ≠ "[]" := by
  decide

/-- Reading the annotation map built by the four `addPatchIfNeeded` steps: a
key is present, with the proposed value, exactly when the current annotations
do not already hold that value under it. -/
theorem mapGet_annotation_steps (currentAnnotations : List (String × String))
    (v1 v2 v3 v4 key proposed : String)
    (hmem : (key, proposed) ∈ [(CHANGE_REVISION_ANN, v1), (CHANGE_REVISIONS_ANN, v2),
      (GIT_REVISION_ANN, v3), (GIT_REVISIONS_ANN, v4)]) :
    mapGet (addPatchIfNeeded (addPatchIfNeeded (addPatchIfNeeded (addPatchIfNeeded []
        currentAnnotations CHANGE_REVISION_ANN v1)
        currentAnnotations CHANGE_REVISIONS_ANN v2)
        currentAnnotations GIT_REVISION_ANN v3)
        currentAnnotations GIT_REVISIONS_ANN v4) key =
      if mapGet currentAnnotations key = some proposed then none else some proposed := by
  have h12 : CHANGE_REVISION_ANN ≠ CHANGE_REVISIONS_ANN := by decide
  have h13 : CHANGE_REVISION_ANN ≠ GIT_REVISION_ANN := by decide
  have h14 : CHANGE_REVISION_ANN ≠ GIT_REVISIONS_ANN := by decide
  have h23 : CHANGE_REVISIONS_ANN ≠ GIT_REVISION_ANN := by decide
  have h24 : CHANGE_REVISIONS_ANN ≠ GIT_REVISIONS_ANN := by decide
  have h34 : GIT_REVISION_ANN ≠ GIT_REVISIONS_ANN := by decide
  simp only [List.mem_cons, Prod.mk.injEq, List.mem_singleton, List.not_mem_nil,
    or_false] at hmem
  simp only [mapGet_addPatchIfNeeded]
  rcases hmem with ⟨rfl, rfl⟩ | ⟨rfl, rfl⟩ | ⟨rfl, rfl⟩ | ⟨rfl, rfl⟩
  · by_cases hc : mapGet currentAnnotations CHANGE_REVISION_ANN = some proposed
    · simp [hc, h12.symm, h13.symm, h14.symm, mapGet]
    · simp [hc, h12.symm, h13.symm, h14.symm, mapGet]
  · by_cases hc : mapGet currentAnnotations CHANGE_REVISIONS_ANN = some proposed
    · simp [hc, h12, h23.symm, h24.symm, mapGet]
    · simp [hc, h12, h23.symm, h24.symm, mapGet]
  · by_cases hc : mapGet currentAnnotations GIT_REVISION_ANN = some proposed
    · simp [hc, h13, h23, h34.symm, mapGet]
    · simp [hc, h13, h23, h34.symm, mapGet]
  · by_cases hc : mapGet currentAnnotations GIT_REVISIONS_ANN = some proposed
    · simp [hc, h14, h24, h34, mapGet]
    · simp [hc, h14, h24, h34, mapGet]

/-- C11 (amended, annotation values): with annotation mirroring on and a
non-nil revision `r` from the Revision Computer, the patch sets
`metadata.annotations` to a map in which each of the four keys is present
exactly when the re-read object does not already hold the proposed value, and
then holds it. The proposed values are: `change-revision` = `r`;
`change-revisions` = `["r"]` when `r` is non-empty and `null` when no revision
was resolved; `git-revision` = the current revision `c`; `git-revisions` =
`["c"]`, a JSON array in every case. -/
theorem ChangeRevision_annotation_values {σ : Type} (B : Backend σ) (w : World σ)
    (a app app2 : Application) (dsync : SyncOperation) (c prev r : String) (s1 s2 s3 : σ)
    (hget : B.Get a.Namespace a.Name w.state = (.ok app, s1))
    (hop : app.Operation.bind (·.Sync) = some dsync)
    (hnone : getChangeRevision app = "")
    (hrevs : getRevisions a = some (c, prev))
    (hrc : B.GetChangeRevision ⟨app.Name, app.Namespace, c, prev⟩ s1 = (.ok ⟨some r⟩, s2))
    (hget2 : B.Get app.Namespace app.Name s2 = (.ok app2, s3)) :
    ∃ (base : PatchMap) (annotations : List (String × String)),
      (ChangeRevision B a true w).2.calls =
        w.calls ++ [Call.Get a.Namespace a.Name,
          Call.GetChangeRevision ⟨app.Name, app.Namespace, c, prev⟩,
          Call.Get app.Namespace app.Name,
          Call.Patch a.Namespace a.Name (jsonEncode (.object
            (mapSet base "metadata" (.object [("annotations", .stringMap annotations)]))))] ∧
      ∀ key proposed,
        (key, proposed) ∈ [(CHANGE_REVISION_ANN, r),
          (CHANGE_REVISIONS_ANN, if r = "" then "null" else "[" ++ jsonString r ++ "]"),
          (GIT_REVISION_ANN, c),
          (GIT_REVISIONS_ANN, "[" ++ jsonString c ++ "]")] →
        mapGet annotations key =
          if mapGet app2.Annotations key = some proposed then none else some proposed := by
  refine ⟨if r = "" then []
      else if (app2.Status.OperationState.bind (·.Operation.Sync)).isSome then
        patchOperationSyncResultWithChangeRevision app2 (some [r])
      else patchOperationWithChangeRevision app2 (some [r]),
    addPatchIfNeeded (addPatchIfNeeded (addPatchIfNeeded (addPatchIfNeeded []
      app2.Annotations CHANGE_REVISION_ANN r)
      app2.Annotations CHANGE_REVISIONS_ANN (if r = "" then "null" else "[" ++ jsonString r ++ "]"))
      app2.Annotations GIT_REVISION_ANN c)
      app2.Annotations GIT_REVISIONS_ANN ("[" ++ jsonString c ++ "]"), ?_, ?_⟩
  · rw [ChangeRevision_annotated_run B w a app app2 dsync c prev r s1 s2 s3
      hget hop hnone hrevs hrc hget2 _ rfl]
  · intro key proposed hmem
    exact mapGet_annotation_steps app2.Annotations _ _ _ _ key proposed hmem

/-- Witness of the amended C11: the re-read object has no annotations and the
Revision Computer returns the empty revision; the annotation map of the patch
holds `change-revisions = null` and `git-revisions = ["R1"]`. -/
theorem ChangeRevision_annotation_values_witness :
    ∃ (base : PatchMap) (annotations : List (String × String)),
      (ChangeRevision (scriptedBackend firstSyncApp firstSyncApp (some "")) firstSyncApp true
          ⟨0, []⟩).2.calls =
        [Call.Get "argocd" "guestbook",
          Call.GetChangeRevision ⟨"guestbook", "argocd", "R1", ""⟩,
          Call.Get "argocd" "guestbook",
          Call.Patch "argocd" "guestbook" (jsonEncode (.object
            (mapSet base "metadata" (.object [("annotations", .stringMap annotations)]))))] ∧
      mapGet annotations CHANGE_REVISIONS_ANN = some "null" ∧
      mapGet annotations GIT_REVISIONS_ANN = some "[\"R1\"]" := by
  obtain ⟨base, annotations, hcalls, hvals⟩ :=
    ChangeRevision_annotation_values (scriptedBackend firstSyncApp firstSyncApp (some ""))
      ⟨0, []⟩ firstSyncApp firstSyncApp firstSyncApp ⟨"R1", "", []⟩ "R1" "" "" 1 1 2
      rfl rfl rfl rfl rfl rfl
  refine ⟨base, annotations, hcalls, ?_, ?_⟩
  · have h := hvals CHANGE_REVISIONS_ANN "null" (by simp)
    rw [h]
    decide
  · have h := hvals GIT_REVISIONS_ANN "[\"R1\"]" (by decide)
    rw [h]
    decide

/-! ## The controller loop -/

/-- C15 (controller event filter): for Bookmark and Deleted events the
per-event step returns `nil` and leaves the world untouched; for every other
kind it is one invocation of `ChangeRevision` on the event's snapshot with the
controller's `useAnnotations` flag. An invocation always logs its first read,
so the step makes a call exactly when the kind is neither Bookmark nor Deleted.
In the loop an error returned by the step is appended to the log and the
remaining events are processed with the same backend and flag. -/
theorem calculateIfPermitted_filter {σ : Type} (B : Backend σ) (useAnnotations : Bool) :
    (∀ a kind w, (kind = EventType.Bookmark ∨ kind = EventType.Deleted) →
      calculateIfPermitted B useAnnotations a kind w = (Result.ok, w)) ∧
    (∀ a kind w, kind ≠ EventType.Bookmark → kind ≠ EventType.Deleted →
      calculateIfPermitted B useAnnotations a kind w = ChangeRevision B a useAnnotations w) ∧
    (∀ a kind w, (calculateIfPermitted B useAnnotations a kind w).2.calls ≠ w.calls ↔
      (kind ≠ EventType.Bookmark ∧ kind ≠ EventType.Deleted)) ∧
    (∀ event rest logged w err w1,
      calculateIfPermitted B useAnnotations event.Application event.Kind w =
        (Result.error err, w1) →
      Run B useAnnotations (event :: rest) logged w =
        Run B useAnnotations rest (logged ++ [err]) w1) ∧
    (∀ event rest logged w w1,
      calculateIfPermitted B useAnnotations event.Application event.Kind w = (Result.ok, w1) →
      Run B useAnnotations (event :: rest) logged w = Run B useAnnotations rest logged w1) := by
  refine ⟨?_, ?_, ?_, ?_, ?_⟩
  · intro a kind w hk
    simp [calculateIfPermitted, hk]
  · intro a kind w h1 h2
    simp [calculateIfPermitted, h1, h2]
  · intro a kind w
    constructor
    · intro hcalls
      by_cases hk : kind = EventType.Bookmark ∨ kind = EventType.Deleted
      · exfalso
        apply hcalls
        simp [calculateIfPermitted, hk]
      · exact not_or.mp hk
    · rintro ⟨h1, h2⟩ heq
      have hpre := ChangeRevision_starts_with_get B w a useAnnotations
      have hstep : calculateIfPermitted B useAnnotations a kind w =
          ChangeRevision B a useAnnotations w := by
        simp [calculateIfPermitted, h1, h2]
      rw [hstep] at heq
      rw [heq] at hpre
      have hlen := hpre.length_le
      simp at hlen
  · intro event rest logged w err w1 hstep
    rw [Run, hstep]
  · intro event rest logged w w1 hstep
    rw [Run, hstep]

/-- Witness of C15: a bookmark, then an addition whose first read fails, then
a modification; the bookmark makes no call, the error is logged, and the
modification is still reconciled. -/
theorem calculateIfPermitted_filter_witness :
    calculateIfPermitted (faultyBackend firstSyncApp firstSyncApp (some "abc") 0) false
        firstSyncApp EventType.Bookmark ⟨0, []⟩ = (Result.ok, ⟨0, []⟩) ∧
    Run (faultyBackend firstSyncApp firstSyncApp (some "abc") 0) false sampleEvents []
        ⟨0, []⟩ =
      (false, ["unavailable"], ⟨5, [Call.Get "argocd" "guestbook",
        Call.Get "argocd" "guestbook",
        Call.GetChangeRevision ⟨"guestbook", "argocd", "R1", ""⟩,
        Call.Get "argocd" "guestbook",
        Call.Patch "argocd" "guestbook"
          "\x7b\"operation\":\x7b\"sync\":\x7b\"changeRevision\":\"abc\"\x7d\x7d\x7d"]⟩) := by
  refine ⟨(calculateIfPermitted_filter (faultyBackend firstSyncApp firstSyncApp (some "abc") 0)
    false).1 firstSyncApp EventType.Bookmark ⟨0, []⟩ (Or.inl rfl), ?_⟩
  have hbook := (calculateIfPermitted_filter
    (faultyBackend firstSyncApp firstSyncApp (some "abc") 0) false).2.2.2.2
    ⟨EventType.Bookmark, firstSyncApp⟩
    [⟨EventType.Added, firstSyncApp⟩, ⟨EventType.Modified, firstSyncApp⟩] [] ⟨0, []⟩ ⟨0, []⟩
    (by decide)
  have hadd := (calculateIfPermitted_filter
    (faultyBackend firstSyncApp firstSyncApp (some "abc") 0) false).2.2.2.1
    ⟨EventType.Added, firstSyncApp⟩ [⟨EventType.Modified, firstSyncApp⟩] [] ⟨0, []⟩
    "unavailable" ⟨1, [Call.Get "argocd" "guestbook"]⟩ (by decide)
  show Run _ false (⟨EventType.Bookmark, firstSyncApp⟩ ::
    [⟨EventType.Added, firstSyncApp⟩, ⟨EventType.Modified, firstSyncApp⟩]) [] ⟨0, []⟩ = _
  rw [hbook, hadd]
  decide

end ACR
